import Mathlib

/-!
Verification of the iniLink configuration-editor core against its
natural-language specification.  The TypeScript source is shallowly
embedded: JS objects become structures, JS `any` scalar payloads become
the `Value` inductive, JS numbers are represented by their canonical
decimal string (the only way numbers are observed in the verified code
paths is via their string rendering and strict equality), and ambient
effects (`Date.now()`, `window.location`) become explicit parameters.
-/

namespace IniLink

/-- JS scalar payload (`any` holding string, number, boolean or null).
A JS number is carried as its canonical decimal source string: the
embedded code only ever compares numbers with `===` and renders them
with `String(...)`, both of which the representation models faithfully
for canonical literals. -/
inductive Value where
  | vNull : Value
  | vBool : Bool → Value
  | vNum : String → Value
  | vStr : String → Value
deriving DecidableEq, Repr

/-- The `DataType` union of `src/types/unified.ts`. -/
inductive DataType where
  | string | number | boolean | object | array | null
deriving DecidableEq, Repr

/-- The `FileType` union of `src/types/unified.ts`. -/
inductive FileType where
  | ini | json | xml
deriving DecidableEq, Repr

/-- JS whitespace characters recognised by `String.prototype.trim`
(ASCII portion; the sources never contain the exotic Unicode spaces). -/
def jsWhitespace (c : Char) : Bool :=
  c = ' ' || c = '\t' || c = '\n' || c = '\r' || c = '\x0b' || c = '\x0c'

/-- Character-list core of `String.prototype.trim`. -/
def trimChars (cs : List Char) : List Char :=
  ((cs.dropWhile jsWhitespace).reverse.dropWhile jsWhitespace).reverse

/-- Model of JS `value.trim()`. -/
def jsTrim (s : String) : String := ⟨trimChars s.data⟩

/-- The alternatives of the regex `/^(true|false|yes|no|on|off|1|0)$/i`
in `inferDataType` (src/utils/fileProcessor.ts). -/
def booleanPatternList : List String :=
  ["true", "false", "yes", "no", "on", "off", "1", "0"]

/-- Model of JS `s.toLowerCase()` (ASCII case mapping, which covers
every string the sources compare case-insensitively). Implemented on
the character list so that it evaluates by kernel reduction. -/
def jsToLower (s : String) : String :=
  ⟨s.data.map Char.toLower⟩

/-- Test of `/^(true|false|yes|no|on|off|1|0)$/i` on an input string:
case-insensitive whole-string match. -/
def booleanPatternTest (s : String) : Bool :=
  booleanPatternList.contains (jsToLower s)

/-- Tail of the regex `/^-?\d+(\.\d+)?$/` after the leading digits:
either nothing, or a dot followed by one or more digits. -/
def decimalFractionTail (cs : List Char) : Bool :=
  match cs with
  | [] => true
  | '.' :: rest => !rest.isEmpty && rest.all Char.isDigit
  | _ => false

/-- Does the list start with the given character. -/
def headIs (c : Char) (cs : List Char) : Bool :=
  match cs with
  | [] => false
  | a :: _ => a = c

/-- Body of the regex `/^-?\d+(\.\d+)?$/` after the optional sign: one
or more digits then an optional fraction. -/
def numberBodyChars (cs : List Char) : Bool :=
  !(cs.takeWhile Char.isDigit).isEmpty &&
    decimalFractionTail (cs.dropWhile Char.isDigit)

/-- Character-list form of the regex `/^-?\d+(\.\d+)?$/`. -/
def numberPatternChars (cs : List Char) : Bool :=
  numberBodyChars (if headIs '-' cs then cs.tail else cs)

/-- Test of the regex `/^-?\d+(\.\d+)?$/` used by `inferDataType`'s
number branch. -/
def numberPatternTest (s : String) : Bool :=
  numberPatternChars s.data

/-- One or more decimal digits, optionally preceded by a sign — the
`SignedInteger` production of the JS `StrNumericLiteral` grammar. -/
def jsSignedDigits (cs : List Char) : Bool :=
  let ds := if headIs '+' cs || headIs '-' cs then cs.tail else cs
  !ds.isEmpty && ds.all Char.isDigit

/-- Optional `ExponentPart` of the JS numeric-literal grammar. -/
def jsExponentTail (cs : List Char) : Bool :=
  if cs.isEmpty then true
  else if headIs 'e' cs || headIs 'E' cs then jsSignedDigits cs.tail
  else false

/-- What may follow the integer digits of a decimal literal: an
optional `.` with optional further digits, then an optional exponent. -/
def decimalRest (cs : List Char) : Bool :=
  if headIs '.' cs then jsExponentTail (cs.tail.dropWhile Char.isDigit)
  else jsExponentTail cs

/-- `StrUnsignedDecimalLiteral` of the JS `Number(string)` grammar:
`Infinity`, `.digits exp?`, or `digits (.digits?)? exp?`. -/
def jsUnsignedDecimal (cs : List Char) : Bool :=
  if cs = "Infinity".data then true
  else if headIs '.' cs then
    !(cs.tail.takeWhile Char.isDigit).isEmpty &&
      jsExponentTail (cs.tail.dropWhile Char.isDigit)
  else
    !(cs.takeWhile Char.isDigit).isEmpty &&
      decimalRest (cs.dropWhile Char.isDigit)

/-- Hexadecimal digit. -/
def isHexDigitChar (c : Char) : Bool :=
  c.isDigit || ('a' ≤ c && c ≤ 'f') || ('A' ≤ c && c ≤ 'F')

/-- Non-decimal integer literals `0x… 0o… 0b…` accepted by `Number`. -/
def jsNonDecimalLiteral (cs : List Char) : Bool :=
  match cs with
  | '0' :: 'x' :: rest => !rest.isEmpty && rest.all isHexDigitChar
  | '0' :: 'X' :: rest => !rest.isEmpty && rest.all isHexDigitChar
  | '0' :: 'o' :: rest => !rest.isEmpty && rest.all (fun c => '0' ≤ c && c ≤ '7')
  | '0' :: 'O' :: rest => !rest.isEmpty && rest.all (fun c => '0' ≤ c && c ≤ '7')
  | '0' :: 'b' :: rest => !rest.isEmpty && rest.all (fun c => c = '0' || c = '1')
  | '0' :: 'B' :: rest => !rest.isEmpty && rest.all (fun c => c = '0' || c = '1')
  | _ => false

/-- `StrNumericLiteral` body after trimming: empty (yields 0), a
non-decimal integer literal, or an optionally signed decimal literal. -/
def jsNumericBody (cs : List Char) : Bool :=
  cs.isEmpty || jsNonDecimalLiteral cs ||
    jsUnsignedDecimal (if headIs '+' cs || headIs '-' cs then cs.tail else cs)

/-- A string on which JS `Number(s)` yields a (possibly infinite)
number rather than `NaN`. -/
def isJsNumericString (s : String) : Bool :=
  jsNumericBody (trimChars s.data)

/-- Model of JS `isNaN(Number(s))`. -/
def jsNumberIsNaN (s : String) : Bool :=
  !(isJsNumericString s)

/-- `inferDataType` from src/utils/fileProcessor.ts, restricted to the
scalar payloads representable by `Value` (the array/object branches of
the source are unreachable for scalars). -/
def inferDataType (value : Value) : DataType :=
  match value with
  | .vNull => .null
  | .vBool _ => .boolean
  | .vNum _ => .number
  | .vStr s =>
    let trimmed := jsTrim s
    if booleanPatternTest trimmed then .boolean
    else if numberPatternTest trimmed && !(jsNumberIsNaN trimmed) then .number
    else .string

/-! Lemmas: a string matching the number regex is never `NaN` under
`Number(...)`, so the `!isNaN(Number(trimmed))` conjunct of the source
is vacuous on regex matches. -/

theorem ws_char_cases {c : Char} (h : jsWhitespace c = true) :
    c = ' ' ∨ c = '\t' ∨ c = '\n' ∨ c = '\r' ∨ c = '\x0b' ∨ c = '\x0c' := by
  have := h
  simp only [jsWhitespace, Bool.or_eq_true, decide_eq_true_eq] at this
  tauto

theorem not_ws_of_isDigit {c : Char} (h : c.isDigit = true) :
    jsWhitespace c = false := by
  cases hw : jsWhitespace c
  · rfl
  · rcases ws_char_cases hw with rfl | rfl | rfl | rfl | rfl | rfl <;>
      exact absurd h (by decide)

theorem dropWhile_eq_self_of_all {p : Char → Bool} {l : List Char}
    (h : ∀ c ∈ l, p c = false) : l.dropWhile p = l := by
  cases l with
  | nil => rfl
  | cons a t => simp [List.dropWhile_cons, h a (List.mem_cons_self a t)]

theorem trimChars_eq_self {l : List Char}
    (h : ∀ c ∈ l, jsWhitespace c = false) : trimChars l = l := by
  unfold trimChars
  rw [dropWhile_eq_self_of_all h,
    dropWhile_eq_self_of_all (fun c hc => h c (List.mem_reverse.mp hc)),
    List.reverse_reverse]

theorem decimalFractionTail_chars {l : List Char}
    (h : decimalFractionTail l = true) : ∀ c ∈ l, c = '.' ∨ c.isDigit = true := by
  cases l with
  | nil => intro c hc; cases hc
  | cons a rest =>
    unfold decimalFractionTail at h
    split at h
    · next heq => exact absurd heq (by simp)
    · next heq =>
      obtain ⟨rfl, rfl⟩ : a = '.' ∧ rest = _ := by
        injection heq with h1 h2; exact ⟨h1, h2⟩
      rw [Bool.and_eq_true] at h
      intro c hc
      rcases List.mem_cons.mp hc with rfl | hr
      · exact Or.inl rfl
      · exact Or.inr (List.all_eq_true.mp h.2 c hr)
    · exact absurd h (by simp)

theorem numberBody_chars {cs : List Char} (h : numberBodyChars cs = true) :
    ∀ c ∈ cs, c = '.' ∨ c.isDigit = true := by
  rw [numberBodyChars, Bool.and_eq_true] at h
  intro c hc
  rw [← List.takeWhile_append_dropWhile (p := Char.isDigit) (l := cs)] at hc
  rcases List.mem_append.mp hc with hmem | hmem
  · exact Or.inr (List.mem_takeWhile_imp hmem)
  · exact decimalFractionTail_chars h.2 c hmem

theorem numberPattern_chars {cs : List Char} (h : numberPatternChars cs = true) :
    ∀ c ∈ cs, c = '-' ∨ c = '.' ∨ c.isDigit = true := by
  unfold numberPatternChars at h
  intro c hc
  by_cases hm : headIs '-' cs = true
  · rw [if_pos hm] at h
    cases cs with
    | nil => cases hc
    | cons a rest =>
      have ha : a = '-' := by simpa [headIs] using hm
      rcases List.mem_cons.mp hc with rfl | hr
      · exact Or.inl ha
      · exact Or.inr (numberBody_chars h c hr)
  · rw [if_neg hm] at h
    exact Or.inr (numberBody_chars h c hc)

theorem not_ws_of_pattern_char {c : Char}
    (h : c = '-' ∨ c = '.' ∨ c.isDigit = true) : jsWhitespace c = false := by
  rcases h with rfl | rfl | hd
  · decide
  · decide
  · exact not_ws_of_isDigit hd

theorem decimalRest_of_fractionTail {l : List Char}
    (h : decimalFractionTail l = true) : decimalRest l = true := by
  cases l with
  | nil => rfl
  | cons a rest =>
    unfold decimalFractionTail at h
    split at h
    · next heq => exact absurd heq (by simp)
    · next heq =>
      obtain ⟨rfl, rfl⟩ : a = '.' ∧ rest = _ := by
        injection heq with h1 h2; exact ⟨h1, h2⟩
      rw [Bool.and_eq_true] at h
      have hdw : rest.dropWhile Char.isDigit = [] :=
        List.dropWhile_eq_nil_iff.mpr (List.all_eq_true.mp h.2)
      simp [decimalRest, headIs, hdw, jsExponentTail]
    · exact absurd h (by simp)

theorem unsignedDecimal_of_body {cs : List Char}
    (h : numberBodyChars cs = true) : jsUnsignedDecimal cs = true := by
  rw [numberBodyChars, Bool.and_eq_true] at h
  obtain ⟨h1, h2⟩ := h
  have hdot : headIs '.' cs = false := by
    cases cs with
    | nil => rfl
    | cons a rest =>
      by_cases ha : a = '.'
      · exfalso
        subst ha
        rw [List.takeWhile_cons] at h1
        simp [(by decide : Char.isDigit '.' = false)] at h1
      · simpa [headIs] using ha
  unfold jsUnsignedDecimal
  by_cases hinf : cs = "Infinity".data
  · simp [hinf]
  · rw [if_neg hinf, hdot]
    simp only [Bool.false_eq_true, if_false]
    rw [Bool.and_eq_true]
    exact ⟨h1, decimalRest_of_fractionTail h2⟩

theorem numeric_of_pattern {cs : List Char}
    (h : numberPatternChars cs = true) : jsNumericBody cs = true := by
  unfold jsNumericBody
  unfold numberPatternChars at h
  have hplus : headIs '+' cs = false := by
    cases cs with
    | nil => rfl
    | cons a rest =>
      by_cases ha : a = '+'
      · exfalso
        subst ha
        rw [if_neg (by simp [headIs])] at h
        rw [numberBodyChars, Bool.and_eq_true] at h
        have := h.1
        rw [List.takeWhile_cons] at this
        simp [(by decide : Char.isDigit '+' = false)] at this
      · simpa [headIs] using ha
  by_cases hm : headIs '-' cs = true
  · rw [if_pos hm] at h
    simp [hplus, hm, unsignedDecimal_of_body h]
  · have hm' : headIs '-' cs = false := by simpa using hm
    rw [if_neg hm] at h
    simp [hplus, hm', unsignedDecimal_of_body h]

/-- On any string matching `/^-?\d+(\.\d+)?$/`, JS `isNaN(Number(s))`
is false: the `!isNaN` conjunct in `inferDataType` never rejects a
regex match. -/
theorem numberPattern_not_nan {s : String}
    (h : numberPatternTest s = true) : jsNumberIsNaN s = false := by
  unfold numberPatternTest at h
  have hnws : ∀ c ∈ s.data, jsWhitespace c = false := fun c hc =>
    not_ws_of_pattern_char (numberPattern_chars h c hc)
  unfold jsNumberIsNaN isJsNumericString
  rw [trimChars_eq_self hnws]
  simp [numeric_of_pattern h]

/-- Claim C4 (amended): `inferDataType` is a pure function of its input
string and classifies in the specified order, but the number clause is
narrower than standard numeric-literal parsing: it returns `boolean`
iff the trimmed string case-insensitively matches one of
true/false/yes/no/on/off/1/0; otherwise it returns `number` iff the
trimmed string matches the decimal regex `-?\d+(\.\d+)?` (exponent,
leading-dot, explicit-plus and hex forms are NOT numbers here);
otherwise it returns `string`. -/
theorem inferDataType_characterization (s : String) :
    (inferDataType (.vStr s) = .boolean ↔
      booleanPatternTest (jsTrim s) = true) ∧
    (inferDataType (.vStr s) = .number ↔
      (booleanPatternTest (jsTrim s) = false ∧
        numberPatternTest (jsTrim s) = true)) ∧
    (inferDataType (.vStr s) = .string ↔
      (booleanPatternTest (jsTrim s) = false ∧
        numberPatternTest (jsTrim s) = false)) := by
  unfold inferDataType
  by_cases hb : booleanPatternTest (jsTrim s) = true
  · simp [hb]
  · have hb' : booleanPatternTest (jsTrim s) = false := by simpa using hb
    by_cases hn : numberPatternTest (jsTrim s) = true
    · have hnan := numberPattern_not_nan hn
      simp [hb', hn, hnan]
    · have hn' : numberPatternTest (jsTrim s) = false := by simpa using hn
      simp [hb', hn']

/-- Claim C4 counterexample: the string "1e5" is a standard finite
numeric literal (JS `Number("1e5") = 100000`, so `isNaN` is false and
the value is finite), yet `inferDataType` classifies it as `string`,
because the source's regex `-?\d+(\.\d+)?` admits no exponent part.
The claim's "number iff finite under standard numeric-literal parsing"
is therefore false. -/
theorem inferDataType_counterexample :
    isJsNumericString "1e5" = true ∧
    booleanPatternTest (jsTrim "1e5") = false ∧
    inferDataType (.vStr "1e5") = DataType.string := by
  refine ⟨by decide, by decide, ?_⟩
  rfl

/-- JS `s.split(sep)` on character lists: split at every separator,
keeping empty groups. -/
def charListSplit (sep : Char) : List Char → List (List Char)
  | [] => [[]]
  | c :: rest =>
    match charListSplit sep rest with
    | [] => [[c]]
    | g :: gs => if c = sep then [] :: g :: gs else (c :: g) :: gs

/-! ### C9: pre-flight file validation (`FileProcessor.validateFile`) -/

/-- The `File` facts consumed by `FileProcessor` (name, byte size,
MIME type). -/
structure JsFile where
  name : String
  size : Nat
  mimeType : String
deriving DecidableEq, Repr

namespace FileProcessor

/-- `acceptedTypes` from src/utils/fileProcessor.ts — note: `.cfg` and
`.conf` are NOT in this list. -/
def acceptedTypes : List String := [".ini", ".json", ".xml", ".txt", ".config"]

/-- `maxFileSize = 10 * 1024 * 1024` (10 MiB). -/
def maxFileSize : Nat := 10 * 1024 * 1024

/-- Result record of `validateFile`. -/
structure FileValidation where
  isValid : Bool
  error : Option String
deriving DecidableEq, Repr

/-- `'.' + file.name.toLowerCase().split('.').pop()`. -/
def fileExtension (name : String) : String :=
  ⟨'.' :: ((charListSplit '.' (jsToLower name).data).getLastD [])⟩

/-- The `toFixed(2)` rendering of `size / 1024 / 1024` used in the
oversize message. JS float rounding is approximated by round-half-up
integer arithmetic; the claims depend only on the message's presence. -/
def sizeMBFixed2 (size : Nat) : String :=
  let cents := (size * 100 + 524288) / 1048576
  toString (cents / 100) ++ "." ++
    (if cents % 100 < 10 then "0" else "") ++ toString (cents % 100)

/-- `validateFile` from src/utils/fileProcessor.ts: size check first,
then extension membership. -/
def validateFile (f : JsFile) : FileValidation :=
  if maxFileSize < f.size then
    { isValid := false,
      error := some ("File size (" ++ sizeMBFixed2 f.size ++
        "MB) exceeds maximum allowed size (10MB)") }
  else if !(acceptedTypes.contains (fileExtension f.name)) then
    { isValid := false,
      error := some ("File type not supported. Accepted types: " ++
        String.intercalate ", " acceptedTypes) }
  else { isValid := true, error := none }

end FileProcessor

/-- Claim C9 (amended): a file passes `validateFile` iff its size is at
most 10 MiB and its lowercased extension is one of
`.ini .json .xml .txt .config` — the spec's `.cfg` and `.conf` are NOT
accepted by this pre-flight check. Every file larger than 10 MiB is
rejected with a descriptive error (the size check runs first). -/
theorem validateFile_characterization (f : JsFile) :
    ((FileProcessor.validateFile f).isValid = true ↔
      (f.size ≤ FileProcessor.maxFileSize ∧
        FileProcessor.acceptedTypes.contains
          (FileProcessor.fileExtension f.name) = true)) ∧
    (FileProcessor.maxFileSize < f.size →
      (FileProcessor.validateFile f).isValid = false ∧
        ((FileProcessor.validateFile f).error).isSome = true) := by
  unfold FileProcessor.validateFile
  by_cases hs : FileProcessor.maxFileSize < f.size
  · constructor
    · simp [hs]
    · intro _
      simp [hs]
  · have hs' : f.size ≤ FileProcessor.maxFileSize := Nat.le_of_not_lt hs
    constructor
    · cases hc : FileProcessor.acceptedTypes.contains
        (FileProcessor.fileExtension f.name) <;> simp [hs, hc, hs']
    · intro hcon; exact absurd hcon hs

/-- Witness for `validateFile_characterization` at concrete files: an
accepted small `.ini` file and a rejected oversize file. -/
theorem validateFile_characterization_witness :
    (FileProcessor.validateFile
      { name := "a.ini", size := 3, mimeType := "text/plain" }).isValid = true ∧
    (FileProcessor.validateFile
      { name := "a.ini", size := 10485761, mimeType := "" }).isValid = false :=
  ⟨(validateFile_characterization
      { name := "a.ini", size := 3, mimeType := "text/plain" }).1.mpr
      ⟨by decide, by rfl⟩,
   ((validateFile_characterization
      { name := "a.ini", size := 10485761, mimeType := "" }).2 (by decide)).1⟩

/-- Claim C9 counterexample: `app.cfg` has extension `.cfg`, which the
claim says is accepted, and its size is far below 10 MiB, yet
`validateFile` rejects it — `acceptedTypes` lacks `.cfg` and `.conf`. -/
theorem validateFile_counterexample :
    FileProcessor.fileExtension "app.cfg" = ".cfg" ∧
    (FileProcessor.validateFile
      { name := "app.cfg", size := 100, mimeType := "" }).isValid = false := by
  constructor <;> rfl

/-! ### The unified tree model (`UnifiedNode` of src/types/unified.ts) -/

/-- `metadata` record of a `UnifiedNode`.  `originalFormat` is required
in the TS type but an object-spread of an absent metadata can produce a
record without it, hence `Option`.  `lastModified` is a millisecond
timestamp.  `originalValue` is `none` when the field is absent
(JS `undefined`). -/
structure NodeMetadata where
  comments : Option (List String)
  originalFormat : Option FileType
  lastModified : Nat
  isExpanded : Option Bool
  isModified : Option Bool
  originalValue : Option Value
deriving DecidableEq, Repr

/-- `UnifiedNode`: canonical tree node.  A node is a container iff
`children` is present (`some`, possibly empty), mirroring the JS
distinction between an absent and an empty `children` array. -/
inductive UnifiedNode where
  | mk : (path key : String) → (value : Value) → (dtype : DataType) →
      (children : Option (List UnifiedNode)) →
      (metadata : Option NodeMetadata) → UnifiedNode
deriving Repr

def UnifiedNode.path : UnifiedNode → String
  | .mk p _ _ _ _ _ => p

def UnifiedNode.key : UnifiedNode → String
  | .mk _ k _ _ _ _ => k

def UnifiedNode.value : UnifiedNode → Value
  | .mk _ _ v _ _ _ => v

def UnifiedNode.dtype : UnifiedNode → DataType
  | .mk _ _ _ t _ _ => t

def UnifiedNode.children : UnifiedNode → Option (List UnifiedNode)
  | .mk _ _ _ _ c _ => c

def UnifiedNode.metadata : UnifiedNode → Option NodeMetadata
  | .mk _ _ _ _ _ m => m

/-! ### C8: rule-based validation (`ValidationEngine`, src/utils/validation.ts) -/

/-- Diagnostic severity. -/
inductive Severity where
  | error | warning
deriving DecidableEq, Repr

/-- `ValidationError` of src/types/unified.ts (`type` renamed `vtype`). -/
structure ValidationError where
  path : String
  message : String
  severity : Severity
  vtype : String
deriving DecidableEq, Repr

/-- `ValidationRule` of src/types/unified.ts.  `required` is a plain
Bool (absent = false under JS truthiness); `pattern` models
`RegExp.test` as a predicate; `custom` is the user callback. -/
structure ValidationRule where
  required : Bool
  minLength : Option Nat
  maxLength : Option Nat
  pattern : Option (String → Bool)
  custom : Option (Value → Bool)
  message : Option String

/-- JS `String(value)` coercion of a scalar. -/
def jsValueToString : Value → String
  | .vNull => "null"
  | .vBool true => "true"
  | .vBool false => "false"
  | .vNum rep => rep
  | .vStr s => s

/-- `ValidationEngine.validateValue`: checks the rule's criteria in
source order (required, then — skipping the rest when the value is
empty — minLength, maxLength, pattern, custom) and returns the first
failure; the `rule.minLength &&`-style guards replicate JS truthiness
(0 is falsy). -/
def validateValue (value : Value) (rule : ValidationRule) (path : String) :
    Option ValidationError :=
  if rule.required && (value = .vNull || value = .vStr "") then
    some { path, message := rule.message.getD "This field is required",
           severity := .error, vtype := "required" }
  else if value = .vNull || value = .vStr "" then none
  else
    let stringValue := jsValueToString value
    if (match rule.minLength with
        | some n => decide (n ≠ 0) && decide (stringValue.length < n)
        | none => false) then
      some { path,
             message := rule.message.getD
               ("Minimum length is " ++ toString (rule.minLength.getD 0)),
             severity := .error, vtype := "minLength" }
    else if (match rule.maxLength with
        | some n => decide (n ≠ 0) && decide (n < stringValue.length)
        | none => false) then
      some { path,
             message := rule.message.getD
               ("Maximum length is " ++ toString (rule.maxLength.getD 0)),
             severity := .error, vtype := "maxLength" }
    else if (match rule.pattern with
        | some p => !(p stringValue)
        | none => false) then
      some { path,
             message := rule.message.getD "Value does not match required pattern",
             severity := .error, vtype := "pattern" }
    else if (match rule.custom with
        | some f => !(f value)
        | none => false) then
      some { path,
             message := rule.message.getD "Custom validation failed",
             severity := .error, vtype := "custom" }
    else none

/-- The engine's `rules` map, path → registered rules (in registration
order); `Map.get(path) || []` becomes a first-match association-list
lookup defaulting to `[]`. -/
structure ValidationEngine where
  rules : List (String × List ValidationRule)

def rulesFor (e : ValidationEngine) (path : String) : List ValidationRule :=
  match e.rules.find? (fun kv => kv.1 = path) with
  | some kv => kv.2
  | none => []

mutual

/-- `ValidationEngine.validateNode`: every failing rule of the node
itself contributes one error (in rule order), then the children's
errors are appended in child order. -/
def validateNode (e : ValidationEngine) : UnifiedNode → List ValidationError
  | .mk path _ value _ children _ =>
    let errors := (rulesFor e path).filterMap (fun rule => validateValue value rule path)
    match children with
    | none => errors
    | some cs => errors ++ validateChildrenAux e cs

def validateChildrenAux (e : ValidationEngine) :
    List UnifiedNode → List ValidationError
  | [] => []
  | c :: rest => validateNode e c ++ validateChildrenAux e rest

end

/-- Number of registered rules at `path` that fail on `value`. -/
def ruleFailCount (e : ValidationEngine) (path : String) (value : Value) : Nat :=
  (rulesFor e path).countP (fun r => (validateValue value r path).isSome)

mutual

/-- Total number of failing (node, rule) pairs in the subtree. -/
def totalFailCount (e : ValidationEngine) : UnifiedNode → Nat
  | .mk path _ value _ children _ =>
    ruleFailCount e path value +
      (match children with
       | none => 0
       | some cs => totalFailCountList e cs)

def totalFailCountList (e : ValidationEngine) : List UnifiedNode → Nat
  | [] => 0
  | c :: rest => totalFailCount e c + totalFailCountList e rest

end

theorem length_filterMap_eq_countP {α β : Type} (f : α → Option β) (l : List α) :
    (l.filterMap f).length = l.countP (fun a => (f a).isSome) := by
  induction l with
  | nil => rfl
  | cons a rest ih =>
    rw [List.filterMap_cons, List.countP_cons]
    cases hf : f a <;> simp [hf, ih]

mutual

theorem validateNode_length_aux (e : ValidationEngine) (n : UnifiedNode) :
    (validateNode e n).length = totalFailCount e n := by
  cases n with
  | mk path key value dtype children metadata =>
    cases children with
    | none =>
      simp [validateNode, totalFailCount, ruleFailCount,
        length_filterMap_eq_countP]
    | some cs =>
      simp [validateNode, totalFailCount, ruleFailCount,
        length_filterMap_eq_countP, validateChildren_length_aux e cs]

theorem validateChildren_length_aux (e : ValidationEngine) (l : List UnifiedNode) :
    (validateChildrenAux e l).length = totalFailCountList e l := by
  cases l with
  | nil => rfl
  | cons c rest =>
    simp [validateChildrenAux, totalFailCountList,
      validateNode_length_aux e c, validateChildren_length_aux e rest]

end

/-- Claim C8 (amended): when a node's path has several failing rules
registered, `validateNode` reports EVERY failing rule — one error per
failing rule in registration order — not only the first; failing rules
on distinct nodes accumulate independently.  Summed up: the number of
reported errors equals the number of failing (node, rule) pairs over
the whole subtree.  (Within one rule, only the first failing criterion
is reported — that is `validateValue`'s early return.) -/
theorem validateNode_counts_every_failing_rule (e : ValidationEngine)
    (n : UnifiedNode) :
    (validateNode e n).length = totalFailCount e n :=
  validateNode_length_aux e n

/-- Two rules on the same path that both fail on the value "ab". -/
def c8Engine : ValidationEngine :=
  ⟨[("p", [{ required := false, minLength := some 5, maxLength := none,
             pattern := none, custom := none, message := none },
           { required := false, minLength := some 6, maxLength := none,
             pattern := none, custom := none, message := none }])]⟩

def c8Node : UnifiedNode := .mk "p" "p" (.vStr "ab") .string none none

/-- Claim C8 counterexample: the path "p" has two failing rules
registered, and `validateNode` reports BOTH (two errors), not only the
first as the claim states. -/
theorem validateNode_counterexample :
    (c8Engine.rules.map (fun kv => (kv.1, kv.2.length))) = [("p", 2)] ∧
    (validateNode c8Engine c8Node).length = 2 :=
  ⟨rfl, rfl⟩

/-! ### Editor/history engine (`useUnifiedEditor`, src hook file) -/

/-- `Change.type` union. -/
inductive ChangeType where
  | modify | add | delete | add_node | delete_node
deriving DecidableEq, Repr

/-- `Change` record; `oldValue` is `none` when the source stores JS
`undefined` (a failed `findNodeByPath(...)?.value`), `some .vNull` when
it stores `null`.  `id` embeds the `Date.now()` timestamp as in the
source. -/
structure Change where
  id : String
  timestamp : Nat
  path : String
  oldValue : Option Value
  newValue : Value
  comment : Option String
  ctype : ChangeType
deriving DecidableEq, Repr

/-- `EditorState.currentFile` payload. -/
structure CurrentFile where
  ftype : FileType
  content : UnifiedNode
  originalContent : String
  filename : String
deriving Repr

/-- `EditorState` of src/types/unified.ts; `expandedPaths` (a JS Set)
is a list of paths, `historyIndex` is a JS number that starts at -1,
hence `Int`. -/
structure EditorState where
  currentFile : Option CurrentFile
  selectedNode : Option String
  changeHistory : List Change
  isModified : Bool
  searchQuery : String
  expandedPaths : List String
  history : List UnifiedNode
  historyIndex : Int
deriving Repr

/-- The hook's initial state. -/
def initialEditorState : EditorState :=
  { currentFile := none, selectedNode := none, changeHistory := [],
    isModified := false, searchQuery := "", expandedPaths := [],
    history := [], historyIndex := -1 }

mutual

/-- `findNodeByPath` from the hook file: the root itself first, then a
depth-first left-to-right search of the children. -/
def findNodeByPath : UnifiedNode → String → Option UnifiedNode
  | .mk p k v t c m, path =>
    if p = path then some (.mk p k v t c m)
    else match c with
      | some cs => findInChildren cs path
      | none => none

def findInChildren : List UnifiedNode → String → Option UnifiedNode
  | [], _ => none
  | c :: rest, path =>
    match findNodeByPath c path with
    | some found => some found
    | none => findInChildren rest path

end

/-- JS object-spread `{...node.metadata, isModified, lastModified}`:
keeps the old fields when metadata exists, otherwise produces a record
holding only the overridden fields. -/
def spreadMetadata (old : Option NodeMetadata) (isMod : Bool) (now : Nat) :
    NodeMetadata :=
  match old with
  | some md => { md with isModified := some isMod, lastModified := now }
  | none =>
    { comments := none, originalFormat := none, lastModified := now,
      isExpanded := none, isModified := some isMod, originalValue := none }

mutual

/-- `updateNodeRecursive` inside `updateNode`: on a path match, set the
value, recompute `isModified := metadata?.originalValue !== newValue`
and stamp `lastModified`; otherwise map over the children. -/
def updateNodeRec (path : String) (newValue : Value) (now : Nat) :
    UnifiedNode → UnifiedNode
  | .mk p k v t c m =>
    if p = path then
      let isMod := decide
        ((match m with | some md => md.originalValue | none => none) ≠ some newValue)
      .mk p k newValue t c (some (spreadMetadata m isMod now))
    else match c with
      | some cs => .mk p k v t (some (updateChildrenRec path newValue now cs)) m
      | none => .mk p k v t none m

def updateChildrenRec (path : String) (newValue : Value) (now : Nat) :
    List UnifiedNode → List UnifiedNode
  | [] => []
  | c :: rest =>
    updateNodeRec path newValue now c :: updateChildrenRec path newValue now rest

end

/-- `updateNode` of the hook: recompute the tree, append a `modify`
change record, truncate the redo tail, push the snapshot, advance the
cursor and set the dirty flag — with NO existence check on `path`. -/
def updateNode (s : EditorState) (path : String) (newValue : Value)
    (comment : Option String) (now : Nat) : EditorState :=
  match s.currentFile with
  | none => s
  | some cf =>
    let updatedContent := updateNodeRec path newValue now cf.content
    let change : Change :=
      { id := path ++ "-" ++ toString now, timestamp := now, path := path,
        oldValue := (findNodeByPath cf.content path).map UnifiedNode.value,
        newValue := newValue, comment := comment, ctype := .modify }
    let newHistory := s.history.take (s.historyIndex + 1).toNat ++ [updatedContent]
    { s with
      currentFile := some { cf with content := updatedContent },
      changeHistory := s.changeHistory ++ [change],
      isModified := true,
      history := newHistory,
      historyIndex := (newHistory.length : Int) - 1 }

mutual

/-- `addNodeRecursive` inside `addNode`: on a parent-path match, append
the freshly built node to the (possibly absent) children; otherwise
map over the children. -/
def addNodeRec (parentPath newPath key : String) (value : Value)
    (dtype : DataType) (ft : FileType) (now : Nat) : UnifiedNode → UnifiedNode
  | .mk p k v t c m =>
    if p = parentPath then
      let newNode : UnifiedNode :=
        .mk newPath key value dtype none
          (some { comments := none, originalFormat := some ft,
                  lastModified := now, isExpanded := none,
                  isModified := some true, originalValue := some .vNull })
      .mk p k v t (some ((c.getD []) ++ [newNode])) m
    else match c with
      | some cs =>
        .mk p k v t (some (addChildrenRec parentPath newPath key value dtype ft now cs)) m
      | none => .mk p k v t none m

def addChildrenRec (parentPath newPath key : String) (value : Value)
    (dtype : DataType) (ft : FileType) (now : Nat) :
    List UnifiedNode → List UnifiedNode
  | [] => []
  | c :: rest =>
    addNodeRec parentPath newPath key value dtype ft now c ::
      addChildrenRec parentPath newPath key value dtype ft now rest

end

/-- `addNode` of the hook: `newPath` is `parentPath.key` (or bare `key`
when `parentPath` is empty/falsy); appends an `add` change record and a
snapshot with NO existence check on `parentPath`. -/
def addNode (s : EditorState) (parentPath key : String) (value : Value)
    (dtype : DataType) (now : Nat) : EditorState :=
  match s.currentFile with
  | none => s
  | some cf =>
    let newPath := if parentPath = "" then key else parentPath ++ "." ++ key
    let updatedContent :=
      addNodeRec parentPath newPath key value dtype cf.ftype now cf.content
    let change : Change :=
      { id := "add-" ++ newPath ++ "-" ++ toString now, timestamp := now,
        path := newPath, oldValue := some .vNull, newValue := value,
        comment := none, ctype := .add }
    let newHistory := s.history.take (s.historyIndex + 1).toNat ++ [updatedContent]
    { s with
      currentFile := some { cf with content := updatedContent },
      changeHistory := s.changeHistory ++ [change],
      isModified := true,
      history := newHistory,
      historyIndex := (newHistory.length : Int) - 1 }

mutual

/-- `deleteNodeRecursive` inside `deleteNode`: filter out children
whose path matches, then recurse into the survivors (the source's
`filter(...).map(...)` fused). -/
def deleteNodeRec (path : String) : UnifiedNode → UnifiedNode
  | .mk p k v t c m =>
    match c with
    | some cs => .mk p k v t (some (deleteChildrenRec path cs)) m
    | none => .mk p k v t none m

def deleteChildrenRec (path : String) : List UnifiedNode → List UnifiedNode
  | [] => []
  | c :: rest =>
    if c.path = path then deleteChildrenRec path rest
    else deleteNodeRec path c :: deleteChildrenRec path rest

end

/-- `deleteNode` of the hook: unlike update/add, it aborts (returns the
previous state) when `findNodeByPath` misses; otherwise it appends a
`delete` change record and snapshot and clears a matching selection. -/
def deleteNode (s : EditorState) (path : String) (now : Nat) : EditorState :=
  match s.currentFile with
  | none => s
  | some cf =>
    match findNodeByPath cf.content path with
    | none => s
    | some nodeToDelete =>
      let updatedContent := deleteNodeRec path cf.content
      let change : Change :=
        { id := "delete-" ++ path ++ "-" ++ toString now, timestamp := now,
          path := path, oldValue := some nodeToDelete.value,
          newValue := .vNull, comment := none, ctype := .delete }
      let newHistory := s.history.take (s.historyIndex + 1).toNat ++ [updatedContent]
      { s with
        currentFile := some { cf with content := updatedContent },
        changeHistory := s.changeHistory ++ [change],
        isModified := true,
        selectedNode := if s.selectedNode = some path then none else s.selectedNode,
        history := newHistory,
        historyIndex := (newHistory.length : Int) - 1 }

/-- `undo`: move the cursor back one snapshot when possible; the dirty
flag clears exactly when the cursor returns to 0.  (The `none` lookup
arm is unreachable from states produced by this API.) -/
def undo (s : EditorState) : EditorState :=
  if s.historyIndex > 0 then
    let newIndex := s.historyIndex - 1
    { s with
      currentFile :=
        match s.currentFile, s.history.get? newIndex.toNat with
        | some cf, some content => some { cf with content := content }
        | some cf, none => some cf
        | none, _ => none,
      historyIndex := newIndex,
      isModified := decide (newIndex > 0) }
  else s

/-- `redo`: move the cursor forward one snapshot when possible and set
the dirty flag. -/
def redo (s : EditorState) : EditorState :=
  if s.historyIndex < (s.history.length : Int) - 1 then
    let newIndex := s.historyIndex + 1
    { s with
      currentFile :=
        match s.currentFile, s.history.get? newIndex.toNat with
        | some cf, some content => some { cf with content := content }
        | some cf, none => some cf
        | none, _ => none,
      historyIndex := newIndex,
      isModified := true }
  else s

/-- The state produced by a successful `loadFile`: fresh history with
the parsed tree as its single snapshot. -/
def loadFileState (prev : EditorState) (ft : FileType) (parsedContent : UnifiedNode)
    (sanitizedContent filename : String) : EditorState :=
  { prev with
    currentFile := some
      { ftype := ft, content := parsedContent,
        originalContent := sanitizedContent, filename := filename },
    changeHistory := [],
    selectedNode := none,
    isModified := false,
    expandedPaths := [parsedContent.path],
    history := [parsedContent],
    historyIndex := 0 }

/-- One editor mutation with its ambient `Date.now()` timestamp. -/
inductive MutOp where
  | update (path : String) (newValue : Value) (comment : Option String) (now : Nat)
  | add (parentPath key : String) (value : Value) (dtype : DataType) (now : Nat)
  | delete (path : String) (now : Nat)

def applyMut (s : EditorState) : MutOp → EditorState
  | .update p v c n => updateNode s p v c n
  | .add pp k v t n => addNode s pp k v t n
  | .delete p n => deleteNode s p n

def applyMuts (s : EditorState) : List MutOp → EditorState
  | [] => s
  | op :: rest => applyMuts (applyMut s op) rest

def undoN (s : EditorState) : Nat → EditorState
  | 0 => s
  | k + 1 => undoN (undo s) k

def redoN (s : EditorState) : Nat → EditorState
  | 0 => s
  | k + 1 => redoN (redo s) k

/-- The current tree, when a file is loaded. -/
def treeOf (s : EditorState) : Option UnifiedNode :=
  s.currentFile.map CurrentFile.content

/-! ### History invariants -/

/-- Invariant of states at the top of their history (fresh loads and
states just after a mutation): the cursor sits on the last snapshot,
which is the current tree. -/
def TopInv (s : EditorState) : Prop :=
  s.historyIndex = (s.history.length : Int) - 1 ∧
  s.history ≠ [] ∧
  ∃ cf, s.currentFile = some cf ∧ s.history.getLast? = some cf.content

/-- Invariant of states anywhere inside a fixed history `H` (reachable
by undo/redo from a `TopInv` state): in-bounds cursor whose snapshot is
the current tree. -/
def MidInv (H : List UnifiedNode) (s : EditorState) : Prop :=
  s.history = H ∧ 0 ≤ s.historyIndex ∧ s.historyIndex < (H.length : Int) ∧
  ∃ cf, s.currentFile = some cf ∧ H.get? s.historyIndex.toNat = some cf.content

theorem take_cursor_eq_self (s : EditorState)
    (hidx : s.historyIndex = (s.history.length : Int) - 1) :
    s.history.take (s.historyIndex + 1).toNat = s.history := by
  rw [hidx]
  have h : ((s.history.length : Int) - 1 + 1).toNat = s.history.length := by omega
  rw [h, List.take_length]

theorem head?_append_left {α : Type} (l l' : List α) (h : l ≠ []) :
    (l ++ l').head? = l.head? := by
  cases l with
  | nil => exact absurd rfl h
  | cons a t => rfl

theorem applyMut_props (s : EditorState) (op : MutOp) (h : TopInv s) :
    TopInv (applyMut s op) ∧
    (applyMut s op).history.head? = s.history.head? ∧
    (applyMut s op).history.length ≤ s.history.length + 1 := by
  obtain ⟨hidx, hne, cf, hcf, hlast⟩ := h
  have htake := take_cursor_eq_self s hidx
  cases op with
  | update p v c n =>
    have ehist : (applyMut s (.update p v c n)).history =
        s.history ++ [updateNodeRec p v n cf.content] := by
      simp only [applyMut, updateNode, hcf, htake]
    have eidx : (applyMut s (.update p v c n)).historyIndex =
        ((s.history.take (s.historyIndex + 1).toNat ++
          [updateNodeRec p v n cf.content]).length : Int) - 1 := by
      simp only [applyMut, updateNode, hcf]
    have ecf : (applyMut s (.update p v c n)).currentFile =
        some { ftype := cf.ftype, content := updateNodeRec p v n cf.content,
               originalContent := cf.originalContent, filename := cf.filename } := by
      simp only [applyMut, updateNode, hcf]
    refine ⟨⟨?_, ?_, ⟨_, ecf, ?_⟩⟩, ?_, ?_⟩
    · rw [eidx, ehist, htake]
    · rw [ehist]; simp
    · rw [ehist]; simp
    · rw [ehist]; exact head?_append_left _ _ hne
    · rw [ehist]; simp
  | add pp k v t n =>
    have ehist : (applyMut s (.add pp k v t n)).history =
        s.history ++
          [addNodeRec pp (if pp = "" then k else pp ++ "." ++ k) k v t cf.ftype n
            cf.content] := by
      simp only [applyMut, addNode, hcf, htake]
    have eidx : (applyMut s (.add pp k v t n)).historyIndex =
        ((s.history.take (s.historyIndex + 1).toNat ++
          [addNodeRec pp (if pp = "" then k else pp ++ "." ++ k) k v t cf.ftype n
            cf.content]).length : Int) - 1 := by
      simp only [applyMut, addNode, hcf]
    have ecf : (applyMut s (.add pp k v t n)).currentFile =
        some { ftype := cf.ftype,
               content := addNodeRec pp (if pp = "" then k else pp ++ "." ++ k) k v t
                 cf.ftype n cf.content,
               originalContent := cf.originalContent, filename := cf.filename } := by
      simp only [applyMut, addNode, hcf]
    refine ⟨⟨?_, ?_, ⟨_, ecf, ?_⟩⟩, ?_, ?_⟩
    · rw [eidx, ehist, htake]
    · rw [ehist]; simp
    · rw [ehist]; simp
    · rw [ehist]; exact head?_append_left _ _ hne
    · rw [ehist]; simp
  | delete p n =>
    cases hfind : findNodeByPath cf.content p with
    | none =>
      have enoop : applyMut s (.delete p n) = s := by
        simp only [applyMut, deleteNode, hcf, hfind]
      rw [enoop]
      exact ⟨⟨hidx, hne, cf, hcf, hlast⟩, rfl, by omega⟩
    | some nd =>
      have ehist : (applyMut s (.delete p n)).history =
          s.history ++ [deleteNodeRec p cf.content] := by
        simp only [applyMut, deleteNode, hcf, hfind, htake]
      have eidx : (applyMut s (.delete p n)).historyIndex =
          ((s.history.take (s.historyIndex + 1).toNat ++
            [deleteNodeRec p cf.content]).length : Int) - 1 := by
        simp only [applyMut, deleteNode, hcf, hfind]
      have ecf : (applyMut s (.delete p n)).currentFile =
          some { ftype := cf.ftype, content := deleteNodeRec p cf.content,
                 originalContent := cf.originalContent, filename := cf.filename } := by
        simp only [applyMut, deleteNode, hcf, hfind]
      refine ⟨⟨?_, ?_, ⟨_, ecf, ?_⟩⟩, ?_, ?_⟩
      · rw [eidx, ehist, htake]
      · rw [ehist]; simp
      · rw [ehist]; simp
      · rw [ehist]; exact head?_append_left _ _ hne
      · rw [ehist]; simp

theorem applyMuts_props (ops : List MutOp) (s : EditorState) (h : TopInv s) :
    TopInv (applyMuts s ops) ∧
    (applyMuts s ops).history.head? = s.history.head? ∧
    (applyMuts s ops).history.length ≤ s.history.length + ops.length := by
  induction ops generalizing s with
  | nil => exact ⟨h, rfl, by simp [applyMuts]⟩
  | cons op rest ih =>
    obtain ⟨h1, h2, h3⟩ := applyMut_props s op h
    obtain ⟨h4, h5, h6⟩ := ih (applyMut s op) h1
    refine ⟨h4, h5.trans h2, ?_⟩
    simp only [applyMuts, List.length_cons]
    omega

theorem midInv_of_topInv {s : EditorState} (h : TopInv s) :
    MidInv s.history s := by
  obtain ⟨hidx, hne, cf, hcf, hlast⟩ := h
  have hlen : 1 ≤ s.history.length := by
    cases hh : s.history with
    | nil => exact absurd hh hne
    | cons a t => simp
  refine ⟨rfl, by omega, by omega, cf, hcf, ?_⟩
  rw [hidx]
  have : (((s.history.length : Int) - 1)).toNat = s.history.length - 1 := by omega
  rw [this, ← List.getLast?_eq_get?, hlast]

theorem undo_mid {H : List UnifiedNode} {s : EditorState} (h : MidInv H s) :
    MidInv H (undo s) ∧ (undo s).historyIndex = max (s.historyIndex - 1) 0 := by
  obtain ⟨hH, h0, hlt, cf, hcf, hget⟩ := h
  by_cases hpos : s.historyIndex > 0
  · have hb : (s.historyIndex - 1).toNat < H.length := by omega
    have hget' : s.history.get? (s.historyIndex - 1).toNat =
        some (H.get ⟨(s.historyIndex - 1).toNat, hb⟩) := by
      rw [hH]; exact List.get?_eq_get hb
    have e1 : (undo s).historyIndex = s.historyIndex - 1 := by
      simp only [undo, if_pos hpos, hcf, hget']
    have e2 : (undo s).history = s.history := by
      simp only [undo, if_pos hpos, hcf, hget']
    have e3 : (undo s).currentFile =
        some { ftype := cf.ftype, content := H.get ⟨(s.historyIndex - 1).toNat, hb⟩,
               originalContent := cf.originalContent, filename := cf.filename } := by
      simp only [undo, if_pos hpos, hcf, hget']
    refine ⟨⟨by rw [e2, hH], by rw [e1]; omega, by rw [e1]; omega,
      ⟨_, e3, ?_⟩⟩, by rw [e1]; omega⟩
    rw [e1]
    exact List.get?_eq_get hb
  · have e : undo s = s := by simp only [undo, if_neg hpos]
    rw [e]
    exact ⟨⟨hH, h0, hlt, cf, hcf, hget⟩, by omega⟩

theorem redo_mid {H : List UnifiedNode} {s : EditorState} (h : MidInv H s) :
    MidInv H (redo s) ∧
    (redo s).historyIndex = min (s.historyIndex + 1) ((H.length : Int) - 1) := by
  obtain ⟨hH, h0, hlt, cf, hcf, hget⟩ := h
  by_cases hpos : s.historyIndex < (s.history.length : Int) - 1
  · have hpos' : s.historyIndex < (H.length : Int) - 1 := by rw [hH] at hpos; exact hpos
    have hb : (s.historyIndex + 1).toNat < H.length := by omega
    have hget' : s.history.get? (s.historyIndex + 1).toNat =
        some (H.get ⟨(s.historyIndex + 1).toNat, hb⟩) := by
      rw [hH]; exact List.get?_eq_get hb
    have e1 : (redo s).historyIndex = s.historyIndex + 1 := by
      simp only [redo, if_pos hpos, hcf, hget']
    have e2 : (redo s).history = s.history := by
      simp only [redo, if_pos hpos, hcf, hget']
    have e3 : (redo s).currentFile =
        some { ftype := cf.ftype, content := H.get ⟨(s.historyIndex + 1).toNat, hb⟩,
               originalContent := cf.originalContent, filename := cf.filename } := by
      simp only [redo, if_pos hpos, hcf, hget']
    refine ⟨⟨by rw [e2, hH], by rw [e1]; omega, by rw [e1]; omega,
      ⟨_, e3, ?_⟩⟩, by rw [e1]; omega⟩
    rw [e1]
    exact List.get?_eq_get hb
  · have e : redo s = s := by simp only [redo, if_neg hpos]
    have hpos' : ¬ s.historyIndex < (H.length : Int) - 1 := by
      rw [hH] at hpos; exact hpos
    rw [e]
    exact ⟨⟨hH, h0, hlt, cf, hcf, hget⟩, by omega⟩

theorem undoN_mid {H : List UnifiedNode} (k : Nat) {s : EditorState}
    (h : MidInv H s) :
    MidInv H (undoN s k) ∧
    (undoN s k).historyIndex = max (s.historyIndex - k) 0 := by
  induction k generalizing s with
  | zero =>
    have h0 := h.2.1
    exact ⟨h, by simp only [undoN]; omega⟩
  | succ k ih =>
    obtain ⟨h1, h2⟩ := undo_mid h
    obtain ⟨h3, h4⟩ := ih h1
    have hstep : undoN s (k + 1) = undoN (undo s) k := rfl
    rw [hstep]
    exact ⟨h3, by omega⟩

theorem redoN_mid {H : List UnifiedNode} (k : Nat) {s : EditorState}
    (h : MidInv H s) :
    MidInv H (redoN s k) ∧
    (redoN s k).historyIndex = min (s.historyIndex + k) ((H.length : Int) - 1) := by
  induction k generalizing s with
  | zero =>
    have hlt := h.2.2.1
    exact ⟨h, by simp only [redoN]; omega⟩
  | succ k ih =>
    obtain ⟨h1, h2⟩ := redo_mid h
    obtain ⟨h3, h4⟩ := ih h1
    have hlt := h.2.2.1
    have hstep : redoN s (k + 1) = redoN (redo s) k := rfl
    rw [hstep]
    exact ⟨h3, by omega⟩

theorem head?_eq_get?_zero {α : Type} (l : List α) : l.head? = l.get? 0 := by
  cases l <;> rfl

/-- Claim C1: from a freshly loaded document (history `[initial]`,
index 0), any sequence of N mutations (update/add/delete) followed by
N `undo()` calls restores the initial tree; and N mutations, M undos
and then M redos (M ≤ N) restore the tree reached after the N
mutations.  (Mutations that the engine rejects as no-ops — a delete of
a missing path — consume a call without adding a snapshot; undo/redo
saturate at the history bounds, so the round trips still hold.) -/
theorem history_undo_redo_round_trip (prev : EditorState) (ft : FileType)
    (t0 : UnifiedNode) (orig fn : String) (ops : List MutOp) (M : Nat)
    (hM : M ≤ ops.length) :
    treeOf (undoN (applyMuts (loadFileState prev ft t0 orig fn) ops) ops.length) =
      some t0 ∧
    treeOf (redoN (undoN (applyMuts (loadFileState prev ft t0 orig fn) ops) M) M) =
      treeOf (applyMuts (loadFileState prev ft t0 orig fn) ops) := by
  have h0 : TopInv (loadFileState prev ft t0 orig fn) := by
    refine ⟨by simp [loadFileState], by simp [loadFileState],
      ⟨{ ftype := ft, content := t0, originalContent := orig, filename := fn },
        rfl, ?_⟩⟩
    simp [loadFileState]
  obtain ⟨hTop, hhead, hlen⟩ := applyMuts_props ops _ h0
  have hheadv : (applyMuts (loadFileState prev ft t0 orig fn) ops).history.head? =
      some t0 := by
    rw [hhead]; simp [loadFileState]
  have hlenv : (applyMuts (loadFileState prev ft t0 orig fn) ops).history.length ≤
      1 + ops.length := by
    simpa [loadFileState] using hlen
  set sN := applyMuts (loadFileState prev ft t0 orig fn) ops with hsN
  have hMid : MidInv sN.history sN := midInv_of_topInv hTop
  have hidxN : sN.historyIndex = (sN.history.length : Int) - 1 := hTop.1
  have hneN : sN.history ≠ [] := hTop.2.1
  have hlen1 : 0 < sN.history.length := List.length_pos.mpr hneN
  constructor
  · obtain ⟨hMidU, hidxU⟩ := undoN_mid ops.length hMid
    have hz : (undoN sN ops.length).historyIndex = 0 := by omega
    obtain ⟨hHu, _, _, cfu, hcfu, hgetu⟩ := hMidU
    rw [hz] at hgetu
    have hhead0 : sN.history.get? (0 : Int).toNat = some t0 := by
      rw [show ((0 : Int).toNat = 0) from rfl, ← head?_eq_get?_zero]
      exact hheadv
    rw [hhead0] at hgetu
    have hcontent : cfu.content = t0 := by injection hgetu with h; exact h.symm
    simp [treeOf, hcfu, hcontent]
  · obtain ⟨hMidU, hidxU⟩ := undoN_mid M hMid
    obtain ⟨hMidR, hidxR⟩ := redoN_mid M hMidU
    have hidxTop : (redoN (undoN sN M) M).historyIndex =
        (sN.history.length : Int) - 1 := by omega
    obtain ⟨hHr, _, _, cfr, hcfr, hgetr⟩ := hMidR
    obtain ⟨cfN, hcfN, hlastN⟩ := hTop.2.2
    have hgetN : sN.history.get? ((sN.history.length : Int) - 1).toNat =
        some cfN.content := by
      have e : (((sN.history.length : Int) - 1)).toNat = sN.history.length - 1 := by
        omega
      rw [e, ← List.getLast?_eq_get?, hlastN]
    rw [hidxTop, hgetN] at hgetr
    have hcontent : cfr.content = cfN.content := by
      injection hgetr with h; exact h.symm
    simp [treeOf, hcfr, hcfN, hcontent]

/-- A small concrete tree for the history witnesses: a root container
with one string leaf. -/
def c1Tree : UnifiedNode :=
  .mk "root" "root" .vNull .object
    (some [.mk "root.a" "a" (.vStr "x") .string none
      (some { comments := none, originalFormat := some .ini, lastModified := 0,
              isExpanded := some true, isModified := some false,
              originalValue := some (.vStr "x") })])
    (some { comments := none, originalFormat := some .ini, lastModified := 0,
            isExpanded := some true, isModified := some false,
            originalValue := some .vNull })

/-- Concrete mutation sequence for the history witness. -/
def c1Ops : List MutOp :=
  [.update "root.a" (.vStr "y") none 1, .delete "root.a" 2]

/-- Witness for `history_undo_redo_round_trip` at a concrete loaded
document, two mutations, and M = 1. -/
theorem history_undo_redo_round_trip_witness :
    treeOf (undoN (applyMuts (loadFileState initialEditorState .ini c1Tree "" "f.ini")
      c1Ops) c1Ops.length) = some c1Tree ∧
    treeOf (redoN (undoN (applyMuts (loadFileState initialEditorState .ini c1Tree "" "f.ini")
      c1Ops) 1) 1) =
      treeOf (applyMuts (loadFileState initialEditorState .ini c1Tree "" "f.ini") c1Ops) :=
  ⟨(history_undo_redo_round_trip initialEditorState .ini c1Tree "" "f.ini" c1Ops 1
      (by decide)).1,
   (history_undo_redo_round_trip initialEditorState .ini c1Tree "" "f.ini" c1Ops 1
      (by decide)).2⟩

/-! ### C2/C10: behaviour on missing and root mutation targets -/

mutual

theorem updateNodeRec_of_miss (path : String) (nv : Value) (now : Nat) :
    ∀ t, findNodeByPath t path = none → updateNodeRec path nv now t = t
  | .mk p k v ty c m => by
    intro h
    unfold findNodeByPath at h
    by_cases hp : p = path
    · rw [if_pos hp] at h; cases h
    · rw [if_neg hp] at h
      unfold updateNodeRec
      rw [if_neg hp]
      cases c with
      | none => rfl
      | some cs =>
        have h' : findInChildren cs path = none := h
        show UnifiedNode.mk p k v ty (some (updateChildrenRec path nv now cs)) m =
          UnifiedNode.mk p k v ty (some cs) m
        rw [updateChildrenRec_of_miss path nv now cs h']

theorem updateChildrenRec_of_miss (path : String) (nv : Value) (now : Nat) :
    ∀ l, findInChildren l path = none → updateChildrenRec path nv now l = l
  | [] => fun _ => rfl
  | c :: rest => by
    intro h
    unfold findInChildren at h
    cases hf : findNodeByPath c path with
    | some found => rw [hf] at h; cases h
    | none =>
      rw [hf] at h
      unfold updateChildrenRec
      rw [updateNodeRec_of_miss path nv now c hf,
        updateChildrenRec_of_miss path nv now rest h]

end

mutual

theorem addNodeRec_of_miss (pp np key : String) (nv : Value) (dt : DataType)
    (ft : FileType) (now : Nat) :
    ∀ t, findNodeByPath t pp = none →
      addNodeRec pp np key nv dt ft now t = t
  | .mk p k v ty c m => by
    intro h
    unfold findNodeByPath at h
    by_cases hp : p = pp
    · rw [if_pos hp] at h; cases h
    · rw [if_neg hp] at h
      unfold addNodeRec
      rw [if_neg hp]
      cases c with
      | none => rfl
      | some cs =>
        have h' : findInChildren cs pp = none := h
        show UnifiedNode.mk p k v ty (some (addChildrenRec pp np key nv dt ft now cs)) m =
          UnifiedNode.mk p k v ty (some cs) m
        rw [addChildrenRec_of_miss pp np key nv dt ft now cs h']

theorem addChildrenRec_of_miss (pp np key : String) (nv : Value) (dt : DataType)
    (ft : FileType) (now : Nat) :
    ∀ l, findInChildren l pp = none →
      addChildrenRec pp np key nv dt ft now l = l
  | [] => fun _ => rfl
  | c :: rest => by
    intro h
    unfold findInChildren at h
    cases hf : findNodeByPath c pp with
    | some found => rw [hf] at h; cases h
    | none =>
      rw [hf] at h
      unfold addChildrenRec
      rw [addNodeRec_of_miss pp np key nv dt ft now c hf,
        addChildrenRec_of_miss pp np key nv dt ft now rest h]

end

/-- Claim C2 (amended): only `deleteNode` treats a missing target as a
complete no-op; `updateNode` on a missing path and `addNode` under a
missing parent leave the TREE unchanged but still push a (duplicate)
history snapshot, append a change record, advance `historyIndex` and
set `isModified` — they do not detect "nothing changed". -/
theorem missing_target_semantics :
    (∀ (s : EditorState) (cf : CurrentFile) (path : String) (now : Nat),
        s.currentFile = some cf → findNodeByPath cf.content path = none →
        deleteNode s path now = s) ∧
    (∀ (s : EditorState) (cf : CurrentFile) (path : String) (nv : Value)
        (cm : Option String) (now : Nat),
        s.currentFile = some cf → findNodeByPath cf.content path = none →
        s.historyIndex = (s.history.length : Int) - 1 →
        (updateNode s path nv cm now).currentFile = s.currentFile ∧
        (updateNode s path nv cm now).history = s.history ++ [cf.content] ∧
        (updateNode s path nv cm now).historyIndex = s.historyIndex + 1 ∧
        (updateNode s path nv cm now).isModified = true ∧
        (updateNode s path nv cm now).changeHistory.length =
          s.changeHistory.length + 1) ∧
    (∀ (s : EditorState) (cf : CurrentFile) (parentPath key : String) (nv : Value)
        (dt : DataType) (now : Nat),
        s.currentFile = some cf → findNodeByPath cf.content parentPath = none →
        s.historyIndex = (s.history.length : Int) - 1 →
        (addNode s parentPath key nv dt now).currentFile = s.currentFile ∧
        (addNode s parentPath key nv dt now).history = s.history ++ [cf.content] ∧
        (addNode s parentPath key nv dt now).historyIndex = s.historyIndex + 1 ∧
        (addNode s parentPath key nv dt now).isModified = true ∧
        (addNode s parentPath key nv dt now).changeHistory.length =
          s.changeHistory.length + 1) := by
  refine ⟨?_, ?_, ?_⟩
  · intro s cf path now hcf hmiss
    simp only [deleteNode, hcf, hmiss]
  · intro s cf path nv cm now hcf hmiss hidx
    have htake := take_cursor_eq_self s hidx
    have htree := updateNodeRec_of_miss path nv now cf.content hmiss
    have ecf : (updateNode s path nv cm now).currentFile = s.currentFile := by
      simp only [updateNode, hcf, htree]
    have ehist : (updateNode s path nv cm now).history = s.history ++ [cf.content] := by
      simp only [updateNode, hcf, htree, htake]
    have eidx : (updateNode s path nv cm now).historyIndex =
        ((s.history.take (s.historyIndex + 1).toNat ++ [cf.content]).length : Int) - 1 := by
      simp only [updateNode, hcf, htree]
    have emod : (updateNode s path nv cm now).isModified = true := by
      simp only [updateNode, hcf]
    have ech : (updateNode s path nv cm now).changeHistory.length =
        s.changeHistory.length + 1 := by
      simp only [updateNode, hcf]
      simp
    refine ⟨ecf, ehist, ?_, emod, ech⟩
    rw [eidx, htake]
    simp
    omega
  · intro s cf parentPath key nv dt now hcf hmiss hidx
    have htake := take_cursor_eq_self s hidx
    have htree := addNodeRec_of_miss parentPath
      (if parentPath = "" then key else parentPath ++ "." ++ key)
      key nv dt cf.ftype now cf.content hmiss
    have ecf : (addNode s parentPath key nv dt now).currentFile = s.currentFile := by
      simp only [addNode, hcf, htree]
    have ehist : (addNode s parentPath key nv dt now).history =
        s.history ++ [cf.content] := by
      simp only [addNode, hcf, htree, htake]
    have eidx : (addNode s parentPath key nv dt now).historyIndex =
        ((s.history.take (s.historyIndex + 1).toNat ++ [cf.content]).length : Int) - 1 := by
      simp only [addNode, hcf, htree]
    have emod : (addNode s parentPath key nv dt now).isModified = true := by
      simp only [addNode, hcf]
    have ech : (addNode s parentPath key nv dt now).changeHistory.length =
        s.changeHistory.length + 1 := by
      simp only [addNode, hcf]
      simp
    refine ⟨ecf, ehist, ?_, emod, ech⟩
    rw [eidx, htake]
    simp
    omega

/-- Witness for `missing_target_semantics` at a concrete loaded state
whose tree does not contain the path "missing". -/
theorem missing_target_semantics_witness :
    (deleteNode (loadFileState initialEditorState .ini c1Tree "" "f.ini") "missing" 5 =
      loadFileState initialEditorState .ini c1Tree "" "f.ini") ∧
    (updateNode (loadFileState initialEditorState .ini c1Tree "" "f.ini") "missing"
        (.vStr "v") none 5).historyIndex =
      (loadFileState initialEditorState .ini c1Tree "" "f.ini").historyIndex + 1 ∧
    (addNode (loadFileState initialEditorState .ini c1Tree "" "f.ini") "missing" "k"
        (.vStr "v") .string 5).historyIndex =
      (loadFileState initialEditorState .ini c1Tree "" "f.ini").historyIndex + 1 :=
  ⟨missing_target_semantics.1 _
      { ftype := .ini, content := c1Tree, originalContent := "", filename := "f.ini" }
      "missing" 5 rfl (by rfl),
   (missing_target_semantics.2.1 _
      { ftype := .ini, content := c1Tree, originalContent := "", filename := "f.ini" }
      "missing" (.vStr "v") none 5 rfl (by rfl) (by rfl)).2.2.1,
   (missing_target_semantics.2.2 _
      { ftype := .ini, content := c1Tree, originalContent := "", filename := "f.ini" }
      "missing" "k" (.vStr "v") .string 5 rfl (by rfl) (by rfl)).2.2.1⟩

/-- Claim C2 counterexample: on a freshly loaded document, updating a
path that matches no node is NOT a no-op — the state changes
(`historyIndex` moves from 0 to 1, a snapshot and a change record are
appended). -/
theorem missing_target_counterexample :
    findNodeByPath c1Tree "missing" = none ∧
    updateNode (loadFileState initialEditorState .ini c1Tree "" "f.ini") "missing"
        (.vStr "v") none 5 ≠
      loadFileState initialEditorState .ini c1Tree "" "f.ini" := by
  constructor
  · rfl
  · intro h
    have h2 := congrArg EditorState.historyIndex h
    exact absurd h2 (by decide)

/-! ### C6: the derived `isModified` flag and the change log -/

mutual

/-- Every node carrying metadata has
`isModified = (originalValue !== value)` — the derived-flag invariant,
checked over the whole subtree. -/
def modFlagOkNode : UnifiedNode → Bool
  | .mk _ _ v _ c m =>
    (match m with
     | some md => decide (md.isModified = some (decide (md.originalValue ≠ some v)))
     | none => true) &&
    (match c with
     | some cs => modFlagOkList cs
     | none => true)

def modFlagOkList : List UnifiedNode → Bool
  | [] => true
  | c :: rest => modFlagOkNode c && modFlagOkList rest

end

mutual

theorem updateRec_modFlagOk (path : String) (nv : Value) (now : Nat) :
    ∀ t, modFlagOkNode t = true →
      modFlagOkNode (updateNodeRec path nv now t) = true
  | .mk p k v ty c m => by
    intro h
    unfold modFlagOkNode at h
    rw [Bool.and_eq_true] at h
    obtain ⟨hmd, hch⟩ := h
    unfold updateNodeRec
    by_cases hp : p = path
    · rw [if_pos hp]
      unfold modFlagOkNode
      rw [Bool.and_eq_true]
      constructor
      · cases m with
        | some md => simp [spreadMetadata]
        | none => simp [spreadMetadata]
      · exact hch
    · rw [if_neg hp]
      cases c with
      | none =>
        unfold modFlagOkNode
        rw [Bool.and_eq_true]
        exact ⟨hmd, rfl⟩
      | some cs =>
        have hch' : modFlagOkList cs = true := hch
        unfold modFlagOkNode
        rw [Bool.and_eq_true]
        exact ⟨hmd, updateChildren_modFlagOk path nv now cs hch'⟩

theorem updateChildren_modFlagOk (path : String) (nv : Value) (now : Nat) :
    ∀ l, modFlagOkList l = true →
      modFlagOkList (updateChildrenRec path nv now l) = true
  | [] => fun _ => rfl
  | c :: rest => by
    intro h
    unfold modFlagOkList at h
    rw [Bool.and_eq_true] at h
    unfold updateChildrenRec modFlagOkList
    rw [Bool.and_eq_true]
    exact ⟨updateRec_modFlagOk path nv now c h.1,
      updateChildren_modFlagOk path nv now rest h.2⟩

end

/-- The loaded tree (when present) satisfies the derived-flag
invariant. -/
def stateModOk (s : EditorState) : Prop :=
  ∀ cf, s.currentFile = some cf → modFlagOkNode cf.content = true

/-- Claim C6 (amended): after any `updateNode`, every node that carries
metadata still has `isModified` true iff its value differs from
`metadata.originalValue` (so reverting a leaf to its original value
resets the flag to false) — but the change log is append-only: a
revert appends another `modify` record for the path instead of
removing the existing one. -/
theorem modified_flag_invariant :
    (∀ (s : EditorState) (path : String) (nv : Value) (cm : Option String)
        (now : Nat), stateModOk s → stateModOk (updateNode s path nv cm now)) ∧
    (∀ (s : EditorState) (path : String) (nv : Value) (cm : Option String)
        (now : Nat),
        (updateNode s path nv cm now).changeHistory = s.changeHistory ∨
        ∃ ch, (updateNode s path nv cm now).changeHistory =
            s.changeHistory ++ [ch] ∧
          ch.ctype = ChangeType.modify ∧ ch.path = path) := by
  constructor
  · intro s path nv cm now h cf' hcf'
    cases hcf : s.currentFile with
    | none =>
      have e : updateNode s path nv cm now = s := by
        simp only [updateNode, hcf]
      rw [e] at hcf'
      exact h cf' hcf'
    | some cf =>
      have ecf : (updateNode s path nv cm now).currentFile =
          some { ftype := cf.ftype, content := updateNodeRec path nv now cf.content,
                 originalContent := cf.originalContent, filename := cf.filename } := by
        simp only [updateNode, hcf]
      rw [ecf] at hcf'
      injection hcf' with hcf'
      rw [← hcf']
      exact updateRec_modFlagOk path nv now cf.content (h cf hcf)
  · intro s path nv cm now
    cases hcf : s.currentFile with
    | none =>
      left
      simp only [updateNode, hcf]
    | some cf =>
      right
      have e : (updateNode s path nv cm now).changeHistory = s.changeHistory ++
          [{ id := path ++ "-" ++ toString now, timestamp := now, path := path,
             oldValue := (findNodeByPath cf.content path).map UnifiedNode.value,
             newValue := nv, comment := cm, ctype := ChangeType.modify }] := by
        simp only [updateNode, hcf]
      exact ⟨_, e, rfl, rfl⟩

/-- Witness for `modified_flag_invariant` at a concrete loaded state
and a concrete update. -/
theorem modified_flag_invariant_witness :
    stateModOk (updateNode (loadFileState initialEditorState .ini c1Tree "" "f.ini")
      "root.a" (.vStr "y") none 1) ∧
    ((updateNode (loadFileState initialEditorState .ini c1Tree "" "f.ini")
        "root.a" (.vStr "y") none 1).changeHistory =
      (loadFileState initialEditorState .ini c1Tree "" "f.ini").changeHistory ∨
    ∃ ch, (updateNode (loadFileState initialEditorState .ini c1Tree "" "f.ini")
        "root.a" (.vStr "y") none 1).changeHistory =
      (loadFileState initialEditorState .ini c1Tree "" "f.ini").changeHistory ++ [ch] ∧
      ch.ctype = ChangeType.modify ∧ ch.path = "root.a") :=
  ⟨modified_flag_invariant.1 _ "root.a" (.vStr "y") none 1
      (fun cf hcf => by injection hcf with h; rw [← h]; rfl),
   modified_flag_invariant.2 _ "root.a" (.vStr "y") none 1⟩

/-- The state after updating the leaf `root.a` away from and back to
its original value. -/
def c6Final : EditorState :=
  updateNode (updateNode (loadFileState initialEditorState .ini c1Tree "" "f.ini")
    "root.a" (.vStr "y") none 1) "root.a" (.vStr "x") none 2

/-- Claim C6 counterexample: after reverting `root.a` to its original
value the flag is correctly false again, yet the change log still holds
BOTH `modify` records for that path — nothing is removed, so the
claim's "removes the corresponding change-log entry" is false. -/
theorem modified_flag_counterexample :
    (c6Final.changeHistory.countP (fun ch => ch.path == "root.a")) = 2 ∧
    ((treeOf c6Final).bind (fun t => findNodeByPath t "root.a")).map
      (fun n => n.metadata.map NodeMetadata.isModified) =
      some (some (some false)) := by
  constructor <;> rfl

/-! ### C10: deleting the root path -/

mutual

/-- No strict descendant of the node has the given path. -/
def noDescendantHasPath (path : String) : UnifiedNode → Bool
  | .mk _ _ _ _ c _ =>
    match c with
    | some cs => noneHasPath path cs
    | none => true

def noneHasPath (path : String) : List UnifiedNode → Bool
  | [] => true
  | c :: rest =>
    decide (c.path ≠ path) && noDescendantHasPath path c && noneHasPath path rest

end

mutual

theorem deleteNodeRec_of_no_desc (path : String) :
    ∀ t, noDescendantHasPath path t = true → deleteNodeRec path t = t
  | .mk p k v ty c m => by
    intro h
    unfold noDescendantHasPath at h
    unfold deleteNodeRec
    cases c with
    | none => rfl
    | some cs =>
      have h' : noneHasPath path cs = true := h
      show UnifiedNode.mk p k v ty (some (deleteChildrenRec path cs)) m =
        UnifiedNode.mk p k v ty (some cs) m
      rw [deleteChildrenRec_of_no_desc path cs h']

theorem deleteChildrenRec_of_no_desc (path : String) :
    ∀ l, noneHasPath path l = true → deleteChildrenRec path l = l
  | [] => fun _ => rfl
  | c :: rest => by
    intro h
    unfold noneHasPath at h
    rw [Bool.and_eq_true, Bool.and_eq_true] at h
    obtain ⟨⟨hne, hdesc⟩, hrest⟩ := h
    unfold deleteChildrenRec
    rw [if_neg (by simpa using hne)]
    rw [deleteNodeRec_of_no_desc path c hdesc,
      deleteChildrenRec_of_no_desc path rest hrest]

end

theorem findNodeByPath_self (t : UnifiedNode) :
    findNodeByPath t t.path = some t := by
  cases t with
  | mk p k v ty c m =>
    show findNodeByPath (.mk p k v ty c m) p = some (.mk p k v ty c m)
    unfold findNodeByPath
    rw [if_pos rfl]

/-- Claim C10: deleting the ROOT's own path is found by
`findNodeByPath` (so the guard passes), but the recursive delete only
filters children, never the root itself: the tree is unchanged while a
snapshot is pushed, a `delete` change record is appended,
`historyIndex` advances and `isModified` becomes true.  The
path-uniqueness hypothesis (`noDescendantHasPath`) rules out a
descendant sharing the root's path. -/
theorem delete_root_keeps_tree (s : EditorState) (cf : CurrentFile) (now : Nat)
    (hcf : s.currentFile = some cf)
    (hidx : s.historyIndex = (s.history.length : Int) - 1)
    (huniq : noDescendantHasPath cf.content.path cf.content = true) :
    (deleteNode s cf.content.path now).currentFile = some cf ∧
    (deleteNode s cf.content.path now).history = s.history ++ [cf.content] ∧
    (deleteNode s cf.content.path now).historyIndex = s.historyIndex + 1 ∧
    (deleteNode s cf.content.path now).isModified = true ∧
    ∃ ch, (deleteNode s cf.content.path now).changeHistory =
        s.changeHistory ++ [ch] ∧
      ch.ctype = ChangeType.delete ∧ ch.path = cf.content.path := by
  have htake := take_cursor_eq_self s hidx
  have hfind := findNodeByPath_self cf.content
  have htree := deleteNodeRec_of_no_desc cf.content.path cf.content huniq
  have ecf : (deleteNode s cf.content.path now).currentFile = some cf := by
    simp only [deleteNode, hcf, hfind, htree]
  have ehist : (deleteNode s cf.content.path now).history =
      s.history ++ [cf.content] := by
    simp only [deleteNode, hcf, hfind, htree, htake]
  have eidx : (deleteNode s cf.content.path now).historyIndex =
      ((s.history.take (s.historyIndex + 1).toNat ++ [deleteNodeRec cf.content.path
        cf.content]).length : Int) - 1 := by
    simp only [deleteNode, hcf, hfind]
  have emod : (deleteNode s cf.content.path now).isModified = true := by
    simp only [deleteNode, hcf, hfind]
  have ech : ∃ ch, (deleteNode s cf.content.path now).changeHistory =
      s.changeHistory ++ [ch] ∧ ch.ctype = ChangeType.delete ∧
      ch.path = cf.content.path := by
    have e : (deleteNode s cf.content.path now).changeHistory = s.changeHistory ++
        [{ id := "delete-" ++ cf.content.path ++ "-" ++ toString now,
           timestamp := now, path := cf.content.path,
           oldValue := some cf.content.value, newValue := Value.vNull,
           comment := none, ctype := ChangeType.delete }] := by
      simp only [deleteNode, hcf, hfind]
    exact ⟨_, e, rfl, rfl⟩
  refine ⟨ecf, ehist, ?_, emod, ech⟩
  rw [eidx, htake, htree]
  simp
  omega

/-- Witness for `delete_root_keeps_tree` at a concrete loaded state. -/
theorem delete_root_keeps_tree_witness :
    (deleteNode (loadFileState initialEditorState .ini c1Tree "" "f.ini")
      c1Tree.path 9).currentFile =
      some { ftype := .ini, content := c1Tree, originalContent := "",
             filename := "f.ini" } ∧
    (deleteNode (loadFileState initialEditorState .ini c1Tree "" "f.ini")
      c1Tree.path 9).historyIndex =
      (loadFileState initialEditorState .ini c1Tree "" "f.ini").historyIndex + 1 :=
  ⟨(delete_root_keeps_tree _
      { ftype := .ini, content := c1Tree, originalContent := "", filename := "f.ini" }
      9 rfl (by rfl) (by rfl)).1,
   (delete_root_keeps_tree _
      { ftype := .ini, content := c1Tree, originalContent := "", filename := "f.ini" }
      9 rfl (by rfl) (by rfl)).2.2.1⟩

/-! ### C7: JSON serializer (`serializeJsonContent`) -/

/-- JS value produced by the serializer's tree walk, i.e. the argument
of `JSON.stringify`; a number keeps its literal rendering. -/
inductive Json where
  | null : Json
  | bool : Bool → Json
  | num : String → Json
  | str : String → Json
  | arr : List Json → Json
  | obj : List (String × Json) → Json
deriving Repr

def jsonOfValue : Value → Json
  | .vNull => .null
  | .vBool b => .bool b
  | .vNum rep => .num rep
  | .vStr s => .str s

/-- Digit-list to number. -/
def digitsToNat (ds : List Char) : Nat :=
  ds.foldl (fun acc c => acc * 10 + (c.toNat - '0'.toNat)) 0

/-- JS `parseInt(s)` for decimal inputs: skip whitespace, optional
sign, longest digit prefix; `none` is `NaN`.  (The legacy `0x` hex
form never arises for the bracket-stripped keys fed to it.) -/
def jsParseInt (s : String) : Option Int :=
  let body : List Char → Option Int := fun cs =>
    let ds := cs.takeWhile Char.isDigit
    if ds.isEmpty then none else some (digitsToNat ds : Int)
  match s.data.dropWhile jsWhitespace with
  | '-' :: rest => (body rest).map (fun n => -n)
  | '+' :: rest => body rest
  | rest => body rest

/-- `child.key.replace(/[\[\]]/g, '')`. -/
def stripBrackets (s : String) : String :=
  ⟨s.data.filter (fun c => !(c = '[' || c = ']'))⟩

/-- The numeric index the serializer computes for a child. -/
def childIndex (c : UnifiedNode) : Option Int :=
  jsParseInt (stripBrackets c.key)

/-- JS sparse-array materialisation: keep assignments with a
non-negative integer index, the array's length is the largest index
plus one, the last assignment to an index wins and holes render as
`null` under `JSON.stringify`. -/
def materializeArray (entries : List (Option Int × Json)) : List Json :=
  let valid : List (Nat × Json) := entries.filterMap (fun e =>
    match e.1 with
    | some i => if 0 ≤ i then some (i.toNat, e.2) else none
    | none => none)
  let len := valid.foldl (fun m e => max m (e.1 + 1)) 0
  (List.range len).map (fun i =>
    match valid.reverse.find? (fun e => e.1 == i) with
    | some e => e.2
    | none => Json.null)

/-- JS object-property assignment `obj[k] = j`: overwrite in place when
the key exists, else append. -/
def objInsert (fields : List (String × Json)) (k : String) (j : Json) :
    List (String × Json) :=
  if fields.any (fun f => f.1 == k) then
    fields.map (fun f => if f.1 == k then (k, j) else f)
  else fields ++ [(k, j)]

/-- Building the JS object by successive `obj[child.key] = …`
assignments.  (JSON.stringify's reordering of integer-like keys is not
modelled; the claims do not concern object key order for such keys.) -/
def objFromEntries (entries : List (String × Json)) : List (String × Json) :=
  entries.foldl (fun acc e => objInsert acc e.1 e.2) []

mutual

/-- `processNode` inside `serializeJsonContent`: a leaf contributes its
value; a container becomes an array when SOME child key starts with
`[` (the source's `children.some(child => child.key.startsWith('['))`),
an object otherwise. -/
def processNode : UnifiedNode → Json
  | .mk _ _ v _ none _ => jsonOfValue v
  | .mk _ _ _ _ (some cs) _ =>
    if cs.any (fun c => headIs '[' c.key.data) then
      Json.arr (materializeArray (processEntries cs))
    else
      Json.obj (objFromEntries (processFields cs))

def processEntries : List UnifiedNode → List (Option Int × Json)
  | [] => []
  | c :: rest =>
    (jsParseInt (stripBrackets c.key), processNode c) :: processEntries rest

def processFields : List UnifiedNode → List (String × Json)
  | [] => []
  | c :: rest => (c.key, processNode c) :: processFields rest

end

/-- JSON string escaping of one character. -/
def jsonEscapeChar (c : Char) : String :=
  if c = '"' then "\\\""
  else if c = '\\' then "\\\\"
  else if c = '\n' then "\\n"
  else if c = '\r' then "\\r"
  else if c = '\t' then "\\t"
  else if c = '\x08' then "\\b"
  else if c = '\x0c' then "\\f"
  else ⟨[c]⟩

def jsonQuote (s : String) : String :=
  "\"" ++ String.join (s.data.map jsonEscapeChar) ++ "\""

def indentStr (d : Nat) : String := ⟨List.replicate (2 * d) ' '⟩

mutual

/-- `JSON.stringify(v, null, 2)` at nesting depth `d`. -/
def jsonStringify (d : Nat) : Json → String
  | .null => "null"
  | .bool true => "true"
  | .bool false => "false"
  | .num rep => rep
  | .str s => jsonQuote s
  | .arr [] => "[]"
  | .arr (x :: xs) =>
    "[\n" ++ stringifyItems (d + 1) (x :: xs) ++ "\n" ++ indentStr d ++ "]"
  | .obj [] => "\x7b\x7d"
  | .obj (f :: fs) =>
    "\x7b\n" ++ stringifyFields (d + 1) (f :: fs) ++ "\n" ++ indentStr d ++ "\x7d"

def stringifyItems (d : Nat) : List Json → String
  | [] => ""
  | [x] => indentStr d ++ jsonStringify d x
  | x :: xs => indentStr d ++ jsonStringify d x ++ ",\n" ++ stringifyItems d xs

def stringifyFields (d : Nat) : List (String × Json) → String
  | [] => ""
  | [f] => indentStr d ++ jsonQuote f.1 ++ ": " ++ jsonStringify d f.2
  | f :: fs =>
    indentStr d ++ jsonQuote f.1 ++ ": " ++ jsonStringify d f.2 ++ ",\n" ++
      stringifyFields d fs

end

/-- `serializeJsonContent` of src serializer: walk the tree when the
root has a (truthy, possibly empty) children array, else stringify the
root value; pretty-print with 2-space indentation. -/
def serializeJsonContent (data : UnifiedNode) : String :=
  jsonStringify 0
    (match data.children with
     | some _ => processNode data
     | none => jsonOfValue data.value)

theorem processEntries_eq_map (cs : List UnifiedNode) :
    processEntries cs = cs.map (fun c => (childIndex c, processNode c)) := by
  induction cs with
  | nil => rfl
  | cons c rest ih => rw [processEntries, ih, List.map_cons]; rfl

theorem processFields_eq_map (cs : List UnifiedNode) :
    processFields cs = cs.map (fun c => (c.key, processNode c)) := by
  induction cs with
  | nil => rfl
  | cons c rest ih => rw [processFields, ih, List.map_cons]

theorem entries_eq_enumFrom (cs : List UnifiedNode) (off : Nat)
    (h : ∀ j (hj : j < cs.length),
      childIndex (cs.get ⟨j, hj⟩) = some ((off + j : Nat) : Int)) :
    cs.map (fun c => (childIndex c, processNode c)) =
      ((cs.map processNode).enumFrom off).map (fun e => ((some (e.1 : Int)), e.2)) := by
  induction cs generalizing off with
  | nil => rfl
  | cons c rest ih =>
    have h0 : childIndex c = some ((off : Nat) : Int) := by
      have := h 0 (by simp)
      simpa using this
    rw [List.map_cons, List.map_cons, List.enumFrom_cons, List.map_cons]
    refine congrArg₂ _ ?_ ?_
    · rw [h0]
    · rw [ih (off + 1) ?_]
      intro j hj
      have := h (j + 1) (by simpa using Nat.succ_lt_succ hj)
      simp only [List.get_cons_succ] at this
      rw [this]
      congr 1
      omega

theorem foldl_max_enumFrom (xs : List Json) (off acc : Nat) :
    ((xs.enumFrom off).foldl (fun m e => max m (e.1 + 1)) acc) =
      if xs.isEmpty then acc else max acc (off + xs.length) := by
  induction xs generalizing off acc with
  | nil => rfl
  | cons x rest ih =>
    rw [List.enumFrom_cons, List.foldl_cons, ih]
    cases rest with
    | nil => simp <;> omega
    | cons y t => simp [List.isEmpty] <;> omega

theorem mem_enumFrom_fst_ge {e : Nat × Json} {off : Nat} {xs : List Json}
    (h : e ∈ xs.enumFrom off) : off ≤ e.1 := by
  obtain ⟨i, x⟩ := e
  exact (List.mem_enumFrom h).1

theorem find?_reverse_enumFrom (xs : List Json) (off i : Nat)
    (h1 : off ≤ i) (h2 : i < off + xs.length) :
    ((xs.enumFrom off).reverse.find? (fun e => e.1 == i)) =
      (xs.get? (i - off)).map (fun x => (i, x)) := by
  induction xs generalizing off with
  | nil => simp at h2; omega
  | cons x rest ih =>
    rw [List.enumFrom_cons, List.reverse_cons, List.find?_append]
    by_cases hi : off = i
    · subst hi
      have hnone : ((rest.enumFrom (off + 1)).reverse.find? (fun e => e.1 == off)) =
          none := by
        rw [List.find?_eq_none]
        intro e he
        have := mem_enumFrom_fst_ge (List.mem_reverse.mp he)
        simp only [beq_iff_eq]
        omega
      rw [hnone]
      simp
    · have hi' : off + 1 ≤ i := by omega
      have hi2 : i < off + 1 + rest.length := by simp at h2 ⊢; omega
      rw [ih (off + 1) hi' hi2]
      have e : i - off = (i - (off + 1)) + 1 := by omega
      rw [e, List.get?_cons_succ]
      cases rest.get? (i - (off + 1)) <;> simp [hi]

theorem materializeArray_enum (xs : List Json) (hne : xs ≠ []) :
    materializeArray ((xs.enumFrom 0).map (fun e => ((some (e.1 : Int)), e.2))) =
      xs := by
  unfold materializeArray
  have hvalid : (((xs.enumFrom 0).map (fun e => ((some (e.1 : Int)), e.2))).filterMap
      (fun e => match e.1 with
        | some i => if 0 ≤ i then some (i.toNat, e.2) else none
        | none => none)) = xs.enumFrom 0 := by
    rw [List.filterMap_map]
    have : ((fun (e : Option Int × Json) => match e.1 with
        | some i => if 0 ≤ i then some (i.toNat, e.2) else none
        | none => none) ∘ (fun (e : Nat × Json) => ((some (e.1 : Int)), e.2))) =
        fun e => some e := by
      funext e
      obtain ⟨i, x⟩ := e
      simp
    rw [this]
    have hfm : ∀ (l : List (Nat × Json)), l.filterMap (fun e => some e) = l := by
      intro l
      induction l with
      | nil => rfl
      | cons a t iht => simp [List.filterMap_cons, iht]
    exact hfm _
  have hlen : ((xs.enumFrom 0).foldl (fun m e => max m (e.1 + 1)) 0) = xs.length := by
    rw [foldl_max_enumFrom]
    cases xs with
    | nil => exact absurd rfl hne
    | cons x t => simp
  simp only [hvalid, hlen]
  refine List.ext_get (by simp) ?_
  intro n h1 h2
  rw [List.get_map]
  have hfind := find?_reverse_enumFrom xs 0 n (by omega) (by simpa using h2)
  simp only [List.get_range]
  rw [Nat.sub_zero] at hfind
  rw [hfind]
  have hget : xs.get? n = some (xs.get ⟨n, h2⟩) := List.get?_eq_get h2
  rw [hget]
  rfl

theorem objFromEntries_foldl_nodup (entries acc : List (String × Json))
    (h : ((acc.map Prod.fst) ++ (entries.map Prod.fst)).Nodup) :
    entries.foldl (fun a e => objInsert a e.1 e.2) acc = acc ++ entries := by
  induction entries generalizing acc with
  | nil => simp
  | cons e rest ih =>
    obtain ⟨k, j⟩ := e
    have hnotin : ∀ f ∈ acc, ¬ (f.1 = k) := by
      intro f hf hfk
      have hk1 : k ∈ acc.map Prod.fst := by
        rw [← hfk]; exact List.mem_map_of_mem Prod.fst hf
      have hk2 : k ∈ ((k, j) :: rest).map Prod.fst := by simp
      exact (List.disjoint_of_nodup_append h) hk1 hk2
    have hins : objInsert acc k j = acc ++ [(k, j)] := by
      unfold objInsert
      have hany : (acc.any (fun f => f.1 == k)) = false := by
        rw [List.any_eq_false]
        intro f hf
        simpa using hnotin f hf
      rw [hany]
      simp
    rw [List.foldl_cons, hins, ih (acc ++ [(k, j)]) (by simpa using h)]
    simp

/-- The c7 demonstration tree: nested objects. -/
def c7Nested : UnifiedNode :=
  .mk "r" "r" .vNull .object
    (some [.mk "r.a" "a" .vNull .object
      (some [.mk "r.a.b" "b" (.vNum "1") .number none none]) none]) none

/-- Claim C7 (amended): `serializeJsonContent` renders a container as a
JSON array iff AT LEAST ONE child key starts with `[` (not "all
children bracket-indexed" as claimed) — when all children are properly
bracket-indexed `[0]..[n-1]` in order, the array lists their values by
numeric index; a container none of whose children's keys starts with
`[` becomes a JSON object with the children's key/value pairs in order;
output is pretty-printed with 2-space indentation (demonstrated on a
nested example). -/
theorem serializeJsonContent_characterization :
    (∀ (p k : String) (v : Value) (dt : DataType) (m : Option NodeMetadata)
        (cs : List UnifiedNode),
        (∀ j (hj : j < cs.length),
          childIndex (cs.get ⟨j, hj⟩) = some ((j : Nat) : Int)) →
        (∀ c ∈ cs, headIs '[' c.key.data = true) → cs ≠ [] →
        processNode (.mk p k v dt (some cs) m) =
          Json.arr (cs.map processNode)) ∧
    (∀ (p k : String) (v : Value) (dt : DataType) (m : Option NodeMetadata)
        (cs : List UnifiedNode),
        (∀ c ∈ cs, headIs '[' c.key.data = false) →
        (cs.map UnifiedNode.key).Nodup →
        processNode (.mk p k v dt (some cs) m) =
          Json.obj (cs.map (fun c => (c.key, processNode c)))) ∧
    serializeJsonContent c7Nested =
      "\x7b\n  \"a\": \x7b\n    \"b\": 1\n  \x7d\n\x7d" := by
  refine ⟨?_, ?_, by rfl⟩
  · intro p k v dt m cs hidx hbr hne
    have hany : cs.any (fun c => headIs '[' c.key.data) = true := by
      cases cs with
      | nil => exact absurd rfl hne
      | cons c rest =>
        simp only [List.any_cons, Bool.or_eq_true]
        exact Or.inl (hbr c (by simp))
    rw [processNode, if_pos hany, processEntries_eq_map,
      entries_eq_enumFrom cs 0 (by simpa using hidx),
      materializeArray_enum _ (by simpa using hne)]
  · intro p k v dt m cs hbr hnodup
    have hany : cs.any (fun c => headIs '[' c.key.data) = false := by
      simp only [List.any_eq_false]
      intro c hc
      simp [hbr c hc]
    rw [processNode, if_neg (by simp [hany]), processFields_eq_map]
    unfold objFromEntries
    rw [objFromEntries_foldl_nodup _ [] (by
      simpa [List.map_map, Function.comp] using hnodup)]
    rfl

/-- Witness for `serializeJsonContent_characterization`: a two-element
properly indexed array container and a plain object container. -/
theorem serializeJsonContent_characterization_witness :
    processNode (.mk "r" "r" .vNull .array
      (some [.mk "r[0]" "[0]" (.vStr "x") .string none none,
             .mk "r[1]" "[1]" (.vNum "7") .number none none]) none) =
      Json.arr [Json.str "x", Json.num "7"] ∧
    processNode (.mk "r" "r" .vNull .object
      (some [.mk "r.a" "a" (.vStr "x") .string none none,
             .mk "r.b" "b" (.vNum "7") .number none none]) none) =
      Json.obj [("a", Json.str "x"), ("b", Json.num "7")] := by
  constructor
  · have h := serializeJsonContent_characterization.1 "r" "r" .vNull .array none
      [.mk "r[0]" "[0]" (.vStr "x") .string none none,
       .mk "r[1]" "[1]" (.vNum "7") .number none none]
      (by decide) (by decide) (by intro hcon; exact List.noConfusion hcon)
    exact h
  · have h := serializeJsonContent_characterization.2.1 "r" "r" .vNull .object none
      [.mk "r.a" "a" (.vStr "x") .string none none,
       .mk "r.b" "b" (.vNum "7") .number none none]
      (by decide) (by decide)
    exact h

/-- Mixed-key container: one bracket-indexed child, one plain-keyed
child. -/
def c7Mixed : UnifiedNode :=
  .mk "r" "r" .vNull .object
    (some [.mk "r.0" "[0]" (.vNum "1") .number none none,
           .mk "r.foo" "foo" (.vNum "2") .number none none]) none

/-- Claim C7 counterexample: `c7Mixed`'s children are NOT all
bracket-indexed, so the claim requires a JSON object — but because ONE
child key starts with `[`, the code renders a JSON array (and silently
drops the `foo` child, whose key parses to no index). -/
theorem serializeJsonContent_counterexample :
    (c7Mixed.children.map (fun cs => cs.all (fun c => headIs '[' c.key.data))) =
      some false ∧
    serializeJsonContent c7Mixed = "[\n  1\n]" := by
  constructor <;> rfl

/-! ### C5: the INI parser (`parseIniFile`, src/utils/iniParser.ts) -/

/-- `type` of an `IniKey`. -/
inductive IniType where
  | string | number | boolean
deriving DecidableEq, Repr

/-- `IniKey` of src/types/ini.ts (`section` renamed `sectionName`,
`type` renamed `itype`). -/
structure IniKey where
  key : String
  value : String
  originalValue : String
  sectionName : String
  itype : IniType
  isModified : Bool
  comment : Option String
  error : Option String
deriving DecidableEq, Repr

/-- `IniSection` of src/types/ini.ts. -/
structure IniSection where
  name : String
  keys : List IniKey
  isExpanded : Bool
deriving DecidableEq, Repr

/-- The INI `ValidationError.type` tags (`syntax` renamed
`syntaxError`). -/
inductive IniErrorType where
  | syntaxError | duplicate_key | invalid_section | invalid_value
  | empty_key | reserved_word
deriving DecidableEq, Repr

/-- The INI-side `ValidationError` of src/types/ini.ts. -/
structure IniValidationError where
  vtype : IniErrorType
  message : String
  line : Option Nat
  sectionName : Option String
  key : Option String
  severity : Severity
deriving DecidableEq, Repr

/-- A value inside the record produced by the external `ini` npm
package: a scalar, or a section object. -/
inductive IniLibVal where
  | scalar : Value → IniLibVal
  | sect : List (String × Value) → IniLibVal
deriving DecidableEq, Repr

/-- `IniData` of src/types/ini.ts (`raw` holds the `ini.parse`
output). -/
structure IniData where
  sections : List IniSection
  raw : List (String × IniLibVal)
  filename : String
  validationErrors : List IniValidationError
deriving DecidableEq, Repr

/-- JS object-property assignment at scalar level: overwrite in place
when the key exists (later duplicate keys REPLACE earlier ones — a JS
object cannot hold two properties with one name), else append. -/
def jsObjInsertVal (obj : List (String × Value)) (k : String) (v : Value) :
    List (String × Value) :=
  if obj.any (fun e => e.1 == k) then
    obj.map (fun e => if e.1 == k then (k, v) else e)
  else obj ++ [(k, v)]

/-- The npm `ini` package's conversion of the raw value text
(`true`/`false` become booleans; quote stripping and `null` conversion
are not modelled — they never arise in the verified inputs). -/
def iniLibConvert (v : String) : Value :=
  if v = "true" then .vBool true
  else if v = "false" then .vBool false
  else .vStr v

/-- Does the list end with the given character. -/
def lastIs (c : Char) (cs : List Char) : Bool :=
  match cs.getLast? with
  | some a => a = c
  | none => false

/-- Modelled from the documented behaviour of the external npm `ini`
package (a dependency, not repository code): line-by-line parse into a
JS record — `[name]` switches (or creates/merges) a section, `k=v`
assigns into the current section or the root, a bare key assigns
`true`, `;`/`#` lines and blanks are skipped.  Because the result is a
JS object, a duplicate key's later value simply overwrites the
earlier one before `parseIniFile` ever sees it. -/
def processIniLines : List (List Char) → List (String × IniLibVal) →
    Option String → List (String × IniLibVal)
  | [], obj, _ => obj
  | line :: rest, obj, cur =>
    let t := trimChars line
    if t.isEmpty || headIs ';' t || headIs '#' t then
      processIniLines rest obj cur
    else if headIs '[' t && lastIs ']' t then
      let name : String := ⟨(t.drop 1).dropLast⟩
      let obj' :=
        match obj.find? (fun e => e.1 == name) with
        | some (_, .sect _) => obj
        | some (_, .scalar _) =>
          obj.map (fun e => if e.1 == name then (name, .sect []) else e)
        | none => obj ++ [(name, .sect [])]
      processIniLines rest obj' (some name)
    else
      let hasEq := t.contains '='
      let key : String :=
        if hasEq then ⟨trimChars (t.takeWhile (fun c => c ≠ '='))⟩ else ⟨t⟩
      let v : Value :=
        if hasEq then
          iniLibConvert ⟨trimChars ((t.dropWhile (fun c => c ≠ '=')).drop 1)⟩
        else .vBool true
      match cur with
      | none =>
        let obj' :=
          if obj.any (fun e => e.1 == key) then
            obj.map (fun e => if e.1 == key then (key, .scalar v) else e)
          else obj ++ [(key, .scalar v)]
        processIniLines rest obj' cur
      | some s =>
        let obj' := obj.map (fun e =>
          if e.1 == s then
            match e.2 with
            | .sect kvs => (e.1, .sect (jsObjInsertVal kvs key v))
            | other => (e.1, other)
          else e)
        processIniLines rest obj' cur

/-- `ini.parse(content)` (external dependency model). -/
def iniLibParse (content : String) : List (String × IniLibVal) :=
  processIniLines (charListSplit '\n' content.data) [] none

/-- Model of JS `s.toUpperCase()` (ASCII). -/
def jsToUpper (s : String) : String :=
  ⟨s.data.map Char.toUpper⟩

/-- `Infinity` literals accepted by `Number`. -/
def isInfinityLiteral (cs : List Char) : Bool :=
  cs = "Infinity".data || cs = "+Infinity".data || cs = "-Infinity".data

/-- JS `Number.isFinite(Number(s))` / `isFinite(Number(s))`: the string
is numeric and not an `Infinity` literal.  (Float overflow of huge
decimal literals is not modelled; no claim depends on it.) -/
def jsNumberIsFinite (s : String) : Bool :=
  isJsNumericString s && !(isInfinityLiteral (trimChars s.data))

/-- `inferType` of src/utils/iniParser.ts — the INI editor's second
rule set (True/T/N/yes/no/on… booleans; `0`/`1` are numbers here). -/
def inferType (v : Value) : IniType :=
  match v with
  | .vBool _ => .boolean
  | .vNum _ => .number
  | .vNull => .string
  | .vStr s =>
    let trimmedValue := jsTrim s
    let lowerValue := jsToLower trimmedValue
    if ["true", "yes", "on", "t"].contains lowerValue ||
        ["no", "n"].contains lowerValue then .boolean
    else if ["TRUE", "NO", "T", "N"].contains (jsToUpper trimmedValue) then .boolean
    else if !(jsNumberIsNaN trimmedValue) && trimmedValue ≠ "" &&
        jsNumberIsFinite trimmedValue then .number
    else .string

/-- `validateSectionName` of src/utils/iniParser.ts. -/
def validateSectionName (sectionName : String) : Option IniValidationError :=
  if jsTrim sectionName = "" then
    some { vtype := .invalid_section, message := "Section name cannot be empty",
           line := none, sectionName := some sectionName, key := none,
           severity := .error }
  else if sectionName.data.any (fun c => c = '[' || c = ']') then
    some { vtype := .invalid_section,
           message := "Section name \"" ++ sectionName ++
             "\" contains invalid characters ([ or ])",
           line := none, sectionName := some sectionName, key := none,
           severity := .error }
  else if ["DEFAULT", "GLOBAL", "ROOT"].contains (jsToUpper sectionName) then
    some { vtype := .reserved_word,
           message := "Section name \"" ++ sectionName ++ "\" is a reserved word",
           line := none, sectionName := some sectionName, key := none,
           severity := .warning }
  else none

/-- `validateKeyName` of src/utils/iniParser.ts. -/
def validateKeyName (keyName sectionName : String) : Option IniValidationError :=
  if jsTrim keyName = "" then
    some { vtype := .empty_key, message := "Key name cannot be empty",
           line := none, sectionName := some sectionName, key := some keyName,
           severity := .error }
  else if keyName.data.any (fun c => c = '=' || c = '[' || c = ']') then
    some { vtype := .invalid_value,
           message := "Key name \"" ++ keyName ++
             "\" contains invalid characters (=, [, or ])",
           line := none, sectionName := some sectionName, key := some keyName,
           severity := .error }
  else if keyName ≠ jsTrim keyName then
    some { vtype := .invalid_value,
           message := "Key name \"" ++ keyName ++
             "\" has leading or trailing whitespace",
           line := none, sectionName := some sectionName, key := some keyName,
           severity := .warning }
  else none

/-- `validateValueType` of src/utils/iniParser.ts. -/
def validateValueType (value : String) (t : IniType)
    (sectionName keyName : String) : Option IniValidationError :=
  match t with
  | .boolean =>
    if !(["true", "false", "yes", "no", "on", "off", "t", "n"].contains
        (jsToLower value)) then
      some { vtype := .invalid_value,
             message := "Invalid boolean value \"" ++ value ++ "\" for key \"" ++
               keyName ++ "\". Expected: True/TRUE/T, No/NO/N, yes/no, on/off",
             line := none, sectionName := some sectionName, key := some keyName,
             severity := .error }
    else none
  | .number =>
    if jsNumberIsNaN value || jsTrim value = "" then
      some { vtype := .invalid_value,
             message := "Invalid number value \"" ++ value ++ "\" for key \"" ++
               keyName ++ "\"",
             line := none, sectionName := some sectionName, key := some keyName,
             severity := .error }
    else if !(jsNumberIsFinite value) then
      some { vtype := .invalid_value,
             message := "Number value \"" ++ value ++ "\" for key \"" ++
               keyName ++ "\" is not finite",
             line := none, sectionName := some sectionName, key := some keyName,
             severity := .error }
    else none
  | .string =>
    if value.data.any (fun c => c = '\n' || c = '\r') then
      some { vtype := .invalid_value,
             message := "String value for key \"" ++ keyName ++
               "\" contains line breaks",
             line := none, sectionName := some sectionName, key := some keyName,
             severity := .warning }
    else none

/-- One line of `validateIniSyntax`. -/
def validateIniSyntaxLine (line : List Char) (lineNumber : Nat) :
    List IniValidationError :=
  let trimmedLine := trimChars line
  if trimmedLine.isEmpty || headIs ';' trimmedLine || headIs '#' trimmedLine then
    []
  else if headIs '[' trimmedLine then
    if !(lastIs ']' trimmedLine) then
      [{ vtype := .syntaxError,
         message := "Unclosed section header on line " ++ toString lineNumber,
         line := some lineNumber, sectionName := none, key := none,
         severity := .error }]
    else if trimmedLine = "[]".data then
      [{ vtype := .invalid_section,
         message := "Empty section name on line " ++ toString lineNumber,
         line := some lineNumber, sectionName := none, key := none,
         severity := .error }]
    else []
  else if !(trimmedLine.contains '=') then
    [{ vtype := .syntaxError,
       message := "Invalid syntax on line " ++ toString lineNumber ++
         ": missing '=' separator",
       line := some lineNumber, sectionName := none, key := none,
       severity := .error }]
  else if (trimChars (trimmedLine.takeWhile (fun c => c ≠ '='))).isEmpty then
    [{ vtype := .empty_key,
       message := "Empty key name on line " ++ toString lineNumber,
       line := some lineNumber, sectionName := none, key := none,
       severity := .error }]
  else []

def validateIniSyntaxLines : List (List Char) → Nat → List IniValidationError
  | [], _ => []
  | line :: rest, n =>
    validateIniSyntaxLine line n ++ validateIniSyntaxLines rest (n + 1)

/-- `validateIniSyntax` of src/utils/iniParser.ts: a line-by-line
pre-pass with 1-based line numbers. -/
def validateIniSyntax (content : String) : List IniValidationError :=
  validateIniSyntaxLines (charListSplit '\n' content.data) 1

/-- The per-entry work of `parseIniFile`'s key loops: duplicate check
against the already-seen set, key-name validation, type inference,
value validation, and the built `IniKey`. -/
def processIniEntries (sectionName : String) (dupMessageTail : String) :
    List (String × Value) → List String → (List IniKey × List IniValidationError)
  | [], _ => ([], [])
  | (k, v) :: rest, seen =>
    let dupErr : List IniValidationError :=
      if seen.contains k then
        [{ vtype := .duplicate_key,
           message := "Duplicate key \"" ++ k ++ "\" found in " ++ dupMessageTail,
           line := none, sectionName := some sectionName, key := some k,
           severity := .error }]
      else []
    let keyErr := (validateKeyName k sectionName).toList
    let t := inferType v
    let valErrOpt := validateValueType (jsValueToString v) t sectionName k
    let iniKey : IniKey :=
      { key := k, value := jsValueToString v,
        originalValue := jsValueToString v, sectionName := sectionName,
        itype := t, isModified := false, comment := none,
        error := valErrOpt.map IniValidationError.message }
    let restResult := processIniEntries sectionName dupMessageTail rest (k :: seen)
    (iniKey :: restResult.1,
      dupErr ++ keyErr ++ valErrOpt.toList ++ restResult.2)

/-- `parseIniFile` of src/utils/iniParser.ts: pre-pass syntax scan,
`ini.parse`, root-scalar pass, then section pass; every error list in
source push order. -/
def parseIniFile (content filename : String) : IniData :=
  let preValidationErrors := validateIniSyntax content
  let parsed := iniLibParse content
  let rootEntries := parsed.filterMap (fun e =>
    match e.2 with
    | .scalar v => some (e.1, v)
    | .sect _ => none)
  let rootResult := processIniEntries "" "root section" rootEntries []
  let rootSections : List IniSection :=
    if rootResult.1.isEmpty then []
    else [{ name := "Root", keys := rootResult.1, isExpanded := true }]
  let sectionResults : List (IniSection × List IniValidationError) :=
    parsed.filterMap (fun e =>
      match e.2 with
      | .scalar _ => none
      | .sect kvs =>
        let sectionErr := (validateSectionName e.1).toList
        let keysResult := processIniEntries e.1
          ("section \"" ++ e.1 ++ "\"") kvs []
        some ({ name := e.1, keys := keysResult.1, isExpanded := true },
          sectionErr ++ keysResult.2))
  { sections := rootSections ++ sectionResults.map Prod.fst,
    raw := parsed,
    filename := filename,
    validationErrors := preValidationErrors ++ rootResult.2 ++
      (sectionResults.map Prod.snd).flatten }

/-- Claim C5 (code bug): for the INI input in which `foo` appears twice
under `[server]`, `parseIniFile` reports NO `duplicate_key` error at
all — `ini.parse` returns a JS object, which cannot hold two
properties named `foo` (the second assignment overwrites the first),
so the parser's duplicate-detection loop iterates deduplicated entries
and its `duplicate_key` branch is unreachable.  The spec's "exactly one
duplicate_key error of severity error" never happens. -/
theorem parseIniFile_duplicate_key_eval :
    ((parseIniFile "[server]\nfoo=1\nfoo=2" "f.ini").validationErrors.countP
      (fun e => decide (e.vtype = IniErrorType.duplicate_key))) = 0 ∧
    (parseIniFile "[server]\nfoo=1\nfoo=2" "f.ini").validationErrors = [] ∧
    ((parseIniFile "[server]\nfoo=1\nfoo=2" "f.ini").sections.map
      (fun s => (s.name, s.keys.map IniKey.key))) = [("server", ["foo"])] :=
  ⟨rfl, rfl, rfl⟩

/-! ### C3: the share codec (`generateShareUrl` / `parseShareUrl`,
src/utils/shareUtils.ts).  `LZString.compressToEncodedURIComponent` /
`decompressFromEncodedURIComponent` and `JSON.stringify`/`JSON.parse`
of the envelope are external libraries; the codec functions are taken
as parameters constrained pointwise by their inverse properties at the
payload in question, which is exactly what the libraries guarantee. -/

/-- `ShareData` of src/utils/shareUtils.ts — note: `version`,
`timestamp`, `filename` and the serialized INI text `data`; there is
NO `fileType` field in this codec. -/
structure ShareData where
  version : String
  timestamp : Nat
  filename : String
  data : String
deriving DecidableEq, Repr

/-- The clean copy built by `generateShareUrl`: comments removed and
modification flags reset on every key. -/
def cleanIniData (d : IniData) : IniData :=
  { d with sections := d.sections.map (fun s =>
      { s with keys := s.keys.map (fun k =>
          { k with comment := none, isModified := false }) }) }

/-- `parseValue` of src/utils/iniParser.ts: coerce the edited string
back to the wire value for its recorded type (`Number(value)` is
modelled by keeping the literal, per the `Value.vNum` convention). -/
def parseValue (value : String) (t : IniType) : Value :=
  match t with
  | .boolean =>
    .vBool (["true", "yes", "on", "t"].contains (jsToLower value) ||
      ["TRUE", "T"].contains (jsToUpper value))
  | .number => .vNum value
  | .string => .vStr value

/-- JS `String(wireValue)` as `ini.stringify` renders it. -/
def valueToWire : Value → String
  | .vStr s => s
  | .vBool true => "true"
  | .vBool false => "false"
  | .vNum rep => rep
  | .vNull => "null"

/-- The `result` record built inside `serializeIniData`: `Root` keys
become top-level scalars, other sections become objects, with JS
object-assignment overwrite semantics. -/
def buildResult : List IniSection → List (String × IniLibVal) →
    List (String × IniLibVal)
  | [], acc => acc
  | s :: rest, acc =>
    let acc' :=
      if s.name = "Root" then
        s.keys.foldl (fun a k =>
          if a.any (fun e => e.1 == k.key) then
            a.map (fun e =>
              if e.1 == k.key then (k.key, .scalar (parseValue k.value k.itype))
              else e)
          else a ++ [(k.key, .scalar (parseValue k.value k.itype))]) acc
      else
        let acc1 :=
          match acc.find? (fun e => e.1 == s.name) with
          | some _ => acc
          | none => acc ++ [(s.name, .sect [])]
        s.keys.foldl (fun a k =>
          a.map (fun e =>
            if e.1 == s.name then
              match e.2 with
              | .sect kvs =>
                (e.1, .sect (jsObjInsertVal kvs k.key (parseValue k.value k.itype)))
              | other => (e.1, other)
            else e)) acc1
    buildResult rest acc'

/-- Model of the npm `ini` package's `stringify` (external dependency):
top-level scalars as `key=value` lines, then each section as a
`[name]` header followed by its `key=value` lines. -/
def iniStringify (obj : List (String × IniLibVal)) : String :=
  String.join (obj.filterMap (fun e =>
    match e.2 with
    | .scalar v => some (e.1 ++ "=" ++ valueToWire v ++ "\n")
    | .sect _ => none)) ++
  String.join (obj.filterMap (fun e =>
    match e.2 with
    | .sect kvs => some ("[" ++ e.1 ++ "]" ++ "\n" ++
        String.join (kvs.map (fun kv => kv.1 ++ "=" ++ valueToWire kv.2 ++ "\n")))
    | .scalar _ => none))

/-- `serializeIniData` of src/utils/iniParser.ts. -/
def serializeIniData (d : IniData) : String :=
  iniStringify (buildResult d.sections [])

/-- The share envelope `generateShareUrl` builds (`Date.now()` passed
explicitly). -/
def mkShareData (iniData : IniData) (now : Nat) : ShareData :=
  { version := "1.0", timestamp := now, filename := iniData.filename,
    data := serializeIniData (cleanIniData iniData) }

/-- `generateShareUrl`, parameterised by the envelope stringifier
(`JSON.stringify`) and the compressor
(`LZString.compressToEncodedURIComponent`); `baseUrl` is
`window.location.origin + pathname`.  Returns the URL and its
length. -/
def generateShareUrl (jstr : ShareData → String) (compress : String → String)
    (baseUrl : String) (iniData : IniData) (now : Nat) : String × Nat :=
  let shareData := mkShareData iniData now
  let compressed := compress (jstr shareData)
  let url := baseUrl ++ "?config=" ++ compressed
  (url, url.length)

/-- `window.location.search` for a given URL: the part from the first
`?` on. -/
def searchOfUrl (url : String) : String :=
  ⟨url.data.dropWhile (fun c => c ≠ '?')⟩

/-- `new URLSearchParams(search).get(name)`: first matching
`name=value` segment's value (percent-decoding not modelled — the
compressed payloads are constrained to be percent/plus-free). -/
def getQueryParam (search name : String) : Option String :=
  let cs := match search.data with
    | '?' :: rest => rest
    | other => other
  let segs := (charListSplit '&' cs).filter (fun seg => !seg.isEmpty)
  (segs.filterMap (fun seg =>
    if (⟨seg.takeWhile (fun c => c ≠ '=')⟩ : String) = name then
      some (⟨(seg.dropWhile (fun c => c ≠ '=')).drop 1⟩ : String)
    else none)).head?

/-- `parseShareUrl`, parameterised by the decompressor and the envelope
parser; absent `config` parameter yields `null` (`.ok none`), every
failure is rethrown as a descriptive error. -/
def parseShareUrl (decompress : String → Option String)
    (jparse : String → Option ShareData) (search : String) :
    Except String (Option ShareData) :=
  match getQueryParam search "config" with
  | none => .ok none
  | some configParam =>
    match decompress configParam with
    | none =>
      .error "Failed to parse shared configuration: Failed to decompress share data"
    | some decompressed =>
      if decompressed = "" then
        .error "Failed to parse shared configuration: Failed to decompress share data"
      else
        match jparse decompressed with
        | none => .error "Failed to parse shared configuration: Unexpected token"
        | some sd =>
          if sd.version = "" || sd.data = "" || sd.filename = "" then
            .error "Failed to parse shared configuration: Invalid share data structure"
          else .ok (some sd)

theorem dropWhile_append_of_all {p : Char → Bool} {A : List Char} (B : List Char)
    (h : ∀ c ∈ A, p c = true) : (A ++ B).dropWhile p = B.dropWhile p := by
  induction A with
  | nil => rfl
  | cons a t ih =>
    rw [List.cons_append, List.dropWhile_cons, if_pos (h a (List.mem_cons_self a t)),
      ih (fun c hc => h c (List.mem_cons_of_mem a hc))]

theorem charListSplit_no_sep {sep : Char} (cs : List Char)
    (h : ∀ c ∈ cs, ¬ c = sep) : charListSplit sep cs = [cs] := by
  induction cs with
  | nil => rfl
  | cons a t ih =>
    unfold charListSplit
    rw [ih (fun c hc => h c (List.mem_cons_of_mem a hc))]
    simp [h a (List.mem_cons_self a t)]

theorem string_mk_data (s : String) : (⟨s.data⟩ : String) = s := by
  cases s
  rfl

theorem getQueryParam_generated (baseUrl compressed : String)
    (hbase : ∀ c ∈ baseUrl.data, ¬ c = '?')
    (hcomp : ∀ c ∈ compressed.data, ¬ c = '&') :
    getQueryParam (searchOfUrl (baseUrl ++ "?config=" ++ compressed)) "config" =
      some compressed := by
  have hdata : (baseUrl ++ "?config=" ++ compressed).data =
      baseUrl.data ++ ('?' :: ("config=".data ++ compressed.data)) := by
    show baseUrl.data ++ "?config=".data ++ compressed.data = _
    rw [List.append_assoc]
    rfl
  have hsearch : (searchOfUrl (baseUrl ++ "?config=" ++ compressed)).data =
      '?' :: ("config=".data ++ compressed.data) := by
    show ((baseUrl ++ "?config=" ++ compressed).data.dropWhile
      (fun c => c ≠ '?')) = _
    rw [hdata, dropWhile_append_of_all _ (fun c hc => by
      simpa using hbase c hc)]
    rw [List.dropWhile_cons]
    simp
  unfold getQueryParam
  rw [hsearch]
  have hsplit : charListSplit '&' ("config=".data ++ compressed.data) =
      [("config=".data ++ compressed.data)] := by
    refine charListSplit_no_sep _ ?_
    intro c hc
    rcases List.mem_append.mp hc with hm | hm
    · fin_cases hm <;> decide
    · exact hcomp c hm
  simp only [hsplit]
  have htake : (("config=".data ++ compressed.data).takeWhile
      (fun c => c ≠ '=')) = "config".data := rfl
  have hdrop : (("config=".data ++ compressed.data).dropWhile
      (fun c => c ≠ '=')) = '=' :: compressed.data := rfl
  simp only [List.filter_cons, List.filter_nil, List.filterMap_cons, htake, hdrop]
  simp [string_mk_data]

/-- Claim C3 (amended): with faithful external codecs (LZ-string and
JSON, taken as parameters with their inverse properties assumed
pointwise at the payload), `parseShareUrl (generateShareUrl d)`
recovers the envelope exactly — in particular the serialized clean INI
content (`data`) and `filename` — PROVIDED the filename and the
serialized content are non-empty (the envelope validation treats empty
strings as missing and throws).  The codec carries no `fileType`: it is
INI-data-specific.  A URL with no `config` parameter decodes to `null`
(`.ok none`), not an error. -/
theorem share_codec_round_trip :
    (∀ (jstr : ShareData → String) (compress : String → String)
        (decompress : String → Option String)
        (jparse : String → Option ShareData)
        (baseUrl : String) (d : IniData) (now : Nat),
      (∀ c ∈ baseUrl.data, ¬ c = '?') →
      (∀ c ∈ (compress (jstr (mkShareData d now))).data, ¬ c = '&') →
      decompress (compress (jstr (mkShareData d now))) =
        some (jstr (mkShareData d now)) →
      jparse (jstr (mkShareData d now)) = some (mkShareData d now) →
      jstr (mkShareData d now) ≠ "" →
      d.filename ≠ "" →
      serializeIniData (cleanIniData d) ≠ "" →
      parseShareUrl decompress jparse
          (searchOfUrl (generateShareUrl jstr compress baseUrl d now).1) =
        .ok (some (mkShareData d now)) ∧
      (mkShareData d now).data = serializeIniData (cleanIniData d) ∧
      (mkShareData d now).filename = d.filename) ∧
    (∀ (decompress : String → Option String)
        (jparse : String → Option ShareData) (search : String),
      getQueryParam search "config" = none →
      parseShareUrl decompress jparse search = .ok none) := by
  constructor
  · intro jstr compress decompress jparse baseUrl d now hbase hcomp hdec hjp
      hjne hfn hser
    refine ⟨?_, rfl, rfl⟩
    have hurl : (generateShareUrl jstr compress baseUrl d now).1 =
        baseUrl ++ "?config=" ++ compress (jstr (mkShareData d now)) := rfl
    rw [hurl]
    unfold parseShareUrl
    simp only [getQueryParam_generated baseUrl _ hbase hcomp]
    simp only [hdec]
    rw [if_neg hjne]
    simp only [hjp]
    have hcond : ¬ ((decide ((mkShareData d now).version = "") ||
        decide ((mkShareData d now).data = "") ||
        decide ((mkShareData d now).filename = "")) = true) := by
      simp only [mkShareData, Bool.or_eq_true, decide_eq_true_eq, not_or]
      exact ⟨⟨by simp, hser⟩, hfn⟩
    rw [if_neg hcond]
  · intro decompress jparse search hnone
    unfold parseShareUrl
    rw [hnone]

/-- A concrete INI document for the share-codec witnesses. -/
def c3Key : IniKey :=
  { key := "port", value := "8080", originalValue := "8080",
    sectionName := "server", itype := .number, isModified := false,
    comment := none, error := none }

def c3Doc : IniData :=
  { sections := [{ name := "server", keys := [c3Key], isExpanded := true }],
    raw := [], filename := "config.ini", validationErrors := [] }

/-- Witness for `share_codec_round_trip` with concrete faithful codecs
(`jstr` sends the envelope to "J", `compress` to "C", and the inverses
restore them). -/
theorem share_codec_round_trip_witness :
    (parseShareUrl (fun _ => some "J") (fun _ => some (mkShareData c3Doc 7))
        (searchOfUrl (generateShareUrl (fun _ => "J") (fun _ => "C")
          "https://x.test/app" c3Doc 7).1) =
      .ok (some (mkShareData c3Doc 7)) ∧
      (mkShareData c3Doc 7).data = serializeIniData (cleanIniData c3Doc) ∧
      (mkShareData c3Doc 7).filename = c3Doc.filename) ∧
    parseShareUrl (fun _ => some "J") (fun _ => some (mkShareData c3Doc 7)) "" =
      .ok none :=
  ⟨share_codec_round_trip.1 (fun _ => "J") (fun _ => "C") (fun _ => some "J")
      (fun _ => some (mkShareData c3Doc 7)) "https://x.test/app" c3Doc 7
      (by decide) (by decide) rfl rfl (by decide) (by decide) (by decide),
   share_codec_round_trip.2 (fun _ => some "J")
      (fun _ => some (mkShareData c3Doc 7)) "" rfl⟩

/-- The same document with an empty filename. -/
def c3BadDoc : IniData :=
  { c3Doc with filename := "" }

/-- Claim C3 counterexample: with the SAME faithful codecs, a document
whose `filename` is the empty string does not round-trip — the decoder
throws "Invalid share data structure" (the `!shareData.filename` check
treats the empty string as missing) instead of recovering content and
filename.  The claim's unconditional recovery is false. -/
theorem share_codec_counterexample :
    (mkShareData c3BadDoc 7).filename = "" ∧
    ((fun _ => some "J" : String → Option String)
      ((fun _ => "C" : String → String) "J") = some "J") ∧
    ((fun _ => some (mkShareData c3BadDoc 7) : String → Option ShareData) "J" =
      some (mkShareData c3BadDoc 7)) ∧
    parseShareUrl (fun _ => some "J") (fun _ => some (mkShareData c3BadDoc 7))
        (searchOfUrl (generateShareUrl (fun _ => "J") (fun _ => "C")
          "https://x.test/app" c3BadDoc 7).1) =
      .error "Failed to parse shared configuration: Invalid share data structure" :=
  ⟨rfl, rfl, rfl, rfl⟩

end IniLink
